import Mathlib

/-!
A shallow embedding of `src/writer.rs` of the `ucd-generate` table writer.

Strings emitted to the output sink are modelled as Lean `String`s; the byte
strings handled by the string packer and the FST key encoder are modelled as
`List Nat` with every element below 256.  The output sink of a writer is
modelled as the list of chunks handed to the underlying `io::Write` object,
one chunk per `write_all`-level event (a `writeln!` is one chunk consisting
of the formatted line plus a newline, a flushed pending line is one chunk).

External collaborators (the `fst` construction library, the `ucd_trie`
builder) are modelled as an explicit record of functions (`Externals`)
passed to the operations that consume them, mirroring the opaque-service
view of the specification.
-/

namespace UcdWriter

/-! ### String packer (`pack_str`, from `writer.rs`) and its test-suite
inverse (`unpack_str`). -/

/-- Loop body of `pack_str`: `value |= (b as u64) << (8 * i)` over the
enumerated bytes.  No truncation is modelled because the caller guarantees
`i ≤ 7` (the `assert!` in the source) and each byte is below 256, so the
value always stays below `2 ^ 64`. -/
def pack_loop : List Nat → Nat → Nat → Nat
  | [], _, value => value
  | b :: bs, i, value => pack_loop bs (i + 1) (value ||| (b <<< (8 * i)))

/-- Rust `Debug` rendering of a byte string, used inside error messages.
The escaping performed by Rust `Debug` is not reproduced; no verified
property depends on the text of an error message beyond distinguishing the
two `pack_str` failure modes. -/
def byteStrRepr (s : List Nat) : String :=
  "\x22" ++ String.mk (s.map (fun b => Char.ofNat b)) ++ "\x22"

/-- Error message of the length check in `pack_str`. -/
def packTooLongMsg (s : List Nat) : String :=
  "cannot encode string " ++ byteStrRepr s ++ " (too long)"

/-- Error message of the NUL check in `pack_str`. -/
def packNulMsg (s : List Nat) : String :=
  "cannot encode string " ++ byteStrRepr s ++ " (contains NUL byte)"

/-- Function `pack_str` from `writer.rs`: convert a string of at most 8 non-NUL
bytes into a `u64`, least significant byte first. -/
def pack_str (s : List Nat) : Except String Nat :=
  if s.length > 8 then .error (packTooLongMsg s)
  else if s.contains 0 then .error (packNulMsg s)
  else .ok (pack_loop s 0 0)

/-- Function `unpack_str` from the test module of `writer.rs`: read bytes from the
least significant byte upward, stopping at a zero byte. -/
def unpack_str (encoded : Nat) : List Nat :=
  if h : encoded = 0 then []
  else (encoded &&& 0xFF) :: unpack_str (encoded >>> 8)
decreasing_by
  simp only [Nat.shiftRight_eq_div_pow]
  exact Nat.div_lt_self (Nat.pos_of_ne_zero h) (by norm_num)

/-- The little-endian value of a byte string, written as the arithmetic
fold that `pack_loop` computes. -/
def packNum : List Nat → Nat
  | [] => 0
  | b :: bs => b + 256 * packNum bs

/-! ### Width selector (`smallest_unsigned_type`) and the per-table type
choice of `ranges_to_unsigned_integer_slice`. -/

/-- Function `smallest_unsigned_type` from `writer.rs`. -/
def smallest_unsigned_type (n : Nat) : String :=
  if n ≤ 255 then "u8"
  else if n ≤ 65535 then "u16"
  else if n ≤ 4294967295 then "u32"
  else "u64"

/-- The numeric-type choice made once per table by
`ranges_to_unsigned_integer_slice`: the maximum value over all runs, or
`u8` for an empty run table. -/
def num_ty (table : List (Nat × Nat × Nat)) : String :=
  match (table.map (fun r => r.2.2)).max? with
  | none => "u8"
  | some max_num => smallest_unsigned_type max_num

/-! ### `rust_uint_type`: state-identifier width selection for DFA
emission.  The `panic!` arm of the source `match` is modelled by an
explicit `panicked` result, distinct from the `Result`-style errors used
everywhere else. -/

/-- Result of a computation that either produces a value or aborts the
process via `panic!`. -/
inductive PanicOr (α : Type) where
  | panicked (msg : String)
  | value (x : α)
deriving DecidableEq, Repr

/-- Function `rust_uint_type` from `writer.rs`, on the byte size of the state-id
type: sizes 1, 2, 4, 8 produce a type name, every other size hits the
`panic!` arm. -/
def rust_uint_type (size : Nat) : PanicOr String :=
  match size with
  | 1 => .value "u8"
  | 2 => .value "u16"
  | 4 => .value "u32"
  | 8 => .value "u64"
  | s => .panicked ("unsupported DFA state id size: " ++ toString s)

/-! ### Identifier policy -/

/-- Function `rust_const_name`: replace `.` with `_`, then ASCII-uppercase. -/
def rust_const_name (s : String) : String :=
  String.mk (((s.data.map (fun c => if c = '.' then '_' else c)).map Char.toUpper))

/-- Function `rust_module_name`: ASCII-lowercase. -/
def rust_module_name (s : String) : String :=
  String.mk (s.data.map Char.toLower)

/-- Function `rust_fn_name`: ASCII-lowercase, then whitespace, `.` and `-` become
`_`. -/
def rust_fn_name (s : String) : String :=
  String.mk ((s.data.map Char.toLower).map
    (fun c => if c.isWhitespace || c = '.' || c = '-' then '_' else c))

/-- Function `u32_key`: the big-endian 4-byte encoding of a `u32`, used as FST key. -/
def u32_key (cp : Nat) : List Nat :=
  [(cp >>> 24) &&& 255, (cp >>> 16) &&& 255, (cp >>> 8) &&& 255, cp &&& 255]

/-! ### Interval compressor.

Modelled from the spec: `util::to_ranges` and `util::to_range_values` live
in the crate's `util` module, which is not part of the provided source;
§4.1 of the specification defines their contract (collapse an ordered,
duplicate-free key or key-value sequence into maximal contiguous runs,
left to right, merging only adjacent keys differing by 1 — and for maps
only when the associated values are equal). -/

/-- Modelled from the spec: tail loop of `util::to_ranges`, carrying the
open run `(start, end)`. -/
def to_ranges_loop (s e : Nat) : List Nat → List (Nat × Nat)
  | [] => [(s, e)]
  | c :: cs => if c = e + 1 then to_ranges_loop s c cs else (s, e) :: to_ranges_loop c c cs

/-- Modelled from the spec: `util::to_ranges` on a sorted duplicate-free
codepoint sequence. -/
def to_ranges : List Nat → List (Nat × Nat)
  | [] => []
  | c :: cs => to_ranges_loop c c cs

/-- Modelled from the spec: tail loop of `util::to_range_values`. -/
def to_range_values_loop {α : Type} [DecidableEq α] (s e : Nat) (v : α) :
    List (Nat × α) → List (Nat × Nat × α)
  | [] => [(s, e, v)]
  | (c, w) :: cs =>
    if c = e + 1 ∧ w = v then to_range_values_loop s c v cs
    else (s, e, v) :: to_range_values_loop c c w cs

/-- Modelled from the spec: `util::to_range_values` on a key-sorted
duplicate-free key-value sequence. -/
def to_range_values {α : Type} [DecidableEq α] : List (Nat × α) → List (Nat × Nat × α)
  | [] => []
  | (c, w) :: cs => to_range_values_loop c c w cs

/-! ### Writer options and state -/

/-- Options structure `WriterOptions` from `writer.rs`.  Directories are
modelled as plain path strings. -/
structure WriterOptions where
  name : String
  columns : Nat
  char_literals : Bool
  fst_dir : Option String
  trie_set : Bool
  dfa_dir : Option String
  ucd_version : Option (Nat × Nat × Nat)
deriving DecidableEq, Repr

/-- State of a `LineWriter`: the chunks already handed to the underlying
sink, the pending line, the column budget and the indentation prefix. -/
structure LineWriterSt where
  out : List String
  line : String
  columns : Nat
  indent : String
deriving DecidableEq, Repr

/-- State of a `Writer`.  The `exe`, `args`, `revision` and
`cargo_version` fields model the ambient process environment read by the
`header` routine (`env::current_exe`, `env::args_os`, the
`UCD_GENERATE_REVISION` and `CARGO_PKG_VERSION` compile-time variables);
they are fixed for the lifetime of the writer.  `files` records the
auxiliary artifact files created in the FST/DFA directories as
`(path, bytes)` pairs. -/
structure WriterSt where
  wtr : LineWriterSt
  wrote_header : Bool
  opts : WriterOptions
  files : List (String × List Nat)
  exe : String
  args : List String
  revision : Option String
  cargo_version : String
deriving DecidableEq, Repr

/-- The six flat arrays exposed by a built `ucd_trie::TrieSetOwned`
(an opaque external structure; only its `as_slice` projection matters
here). -/
structure TrieArrays where
  tree1_level1 : List Nat
  tree2_level1 : List Nat
  tree2_level2 : List Nat
  tree3_level1 : List Nat
  tree3_level2 : List Nat
  tree3_level3 : List Nat
deriving DecidableEq, Repr

/-- External collaborators invoked as opaque services: the `ucd_trie`
builder and the byte serialization of built `fst` sets and maps.  The
`fst` builders' insertion bookkeeping is modelled by collecting the
inserted key/value pairs; their serialized form is an arbitrary function
of those pairs. -/
structure Externals where
  trieFromCodepoints : List Nat → Except String TrieArrays
  fstSetBytes : List (List Nat) → List Nat
  fstMapBytes : List (List Nat × Nat) → List Nat

/-- Computations over the writer state that either succeed or return an
error produced by the `err!` macro (modelled as a plain message string,
the crate's `error` module not being part of the provided source); the
state mutations performed before an early `return Err(..)` persist, as
they do through `&mut self` in the source. -/
def WriterM (α : Type) : Type := WriterSt → Except String α × WriterSt

instance : Monad WriterM where
  pure a := fun st => (.ok a, st)
  bind m f := fun st =>
    match m st with
    | (.ok a, st1) => f a st1
    | (.error e, st1) => (.error e, st1)

/-- Rust `str::trim_end`: drop trailing whitespace. -/
def trimEndStr (s : String) : String :=
  String.mk ((s.data.reverse.dropWhile Char.isWhitespace).reverse)

/-- `LineWriter::flush_line`: a no-op on an empty pending line, otherwise
emit the trimmed line plus a newline and clear it. -/
def LineWriterSt.flushP (lw : LineWriterSt) : LineWriterSt :=
  if lw.line = "" then lw
  else { lw with out := lw.out ++ [trimEndStr lw.line ++ "\n"], line := "" }

/-- `LineWriter::write_str`: flush first when appending would exceed the
column budget (byte lengths, as in the source), re-apply the indent on an
empty line, then append the token. -/
def LineWriterSt.writeStrP (lw : LineWriterSt) (s : String) : LineWriterSt :=
  let lw1 := if lw.line.utf8ByteSize + s.utf8ByteSize > lw.columns then lw.flushP else lw
  let lw2 := if lw1.line = "" then { lw1 with line := lw1.indent } else lw1
  { lw2 with line := lw2.line ++ s }

/-- The `io::Write::write` implementation of `LineWriter`: flush the
pending line, then hand the buffer to the underlying sink. -/
def LineWriterSt.writeP (lw : LineWriterSt) (buf : String) : LineWriterSt :=
  let lw1 := lw.flushP
  { lw1 with out := lw1.out ++ [buf] }

/-- Early `return Err(..)` via the `err!` macro. -/
def wErr {α : Type} (msg : String) : WriterM α := fun st => (.error msg, st)

/-- Lift `flush_line` to the writer. -/
def wFlushLine : WriterM Unit := fun st =>
  (.ok (), { st with wtr := st.wtr.flushP })

/-- Lift `write_str` to the writer. -/
def wWriteStr (s : String) : WriterM Unit := fun st =>
  (.ok (), { st with wtr := st.wtr.writeStrP s })

/-- One `write!`-level event on the writer (one formatted buffer handed to
`io::Write::write`). -/
def wWrite (buf : String) : WriterM Unit := fun st =>
  (.ok (), { st with wtr := st.wtr.writeP buf })

/-- One `writeln!`-level event: the formatted line plus a newline. -/
def wWriteln (s : String) : WriterM Unit := wWrite (s ++ "\n")

/-- `LineWriter::indent`: replace the indentation prefix. -/
def wIndent (s : String) : WriterM Unit := fun st =>
  (.ok (), { st with wtr := { st.wtr with indent := s } })

/-- `io::Write::flush` on the `LineWriter`: flush the pending line (the
underlying sink's own flush has no observable effect in this model). -/
def wFlush : WriterM Unit := wFlushLine

/-- Record the one-shot header flag. -/
def wSetHeader : WriterM Unit := fun st =>
  (.ok (), { st with wrote_header := true })

/-- `File::create(..)` + `write_all(..)` for an auxiliary artifact file. -/
def wCreateFile (path : String) (bytes : List Nat) : WriterM Unit := fun st =>
  (.ok (), { st with files := st.files ++ [(path, bytes)] })

/-- Sequential loop over a list, as the `for` loops of the source: the
body's early error return aborts the remainder. -/
def wFor {α : Type} (f : α → WriterM Unit) : List α → WriterM Unit
  | [] => pure ()
  | x :: xs => do f x; wFor f xs

/-! ### Codepoint rendering -/

/-- Rust `std::char::from_u32`, an external (standard-library) predicate:
defined exactly on Unicode scalar values, i.e. not on the surrogate range
`0xD800..=0xDFFF` and not above `0x10FFFF`. -/
def char_from_u32 (cp : Nat) : Option Nat :=
  if (0xD800 ≤ cp ∧ cp ≤ 0xDFFF) ∨ 0x10FFFF < cp then none else some cp

/-- Rust `Debug` rendering of a `char` (`format!("{:?}", c)`); the
escaping rules of `Debug` are not reproduced, no verified property
depends on the rendered text of a char literal. -/
def rustCharDebug (c : Nat) : String :=
  "\x27" ++ String.singleton (Char.ofNat c) ++ "\x27"

/-- Rust `Debug` rendering of a `&str` (`format!("{:?}", s)`), escaping
elided as above. -/
def strRepr (s : String) : String := "\x22" ++ s ++ "\x22"

/-- `Writer::rust_codepoint`: a char literal (dropping non-scalar values)
in char-literal style, otherwise `!0` for the all-ones value and the
decimal literal for everything else. -/
def rust_codepoint (opts : WriterOptions) (cp : Nat) : Option String :=
  if opts.char_literals then (char_from_u32 cp).map rustCharDebug
  else if cp = 4294967295 then some "!0"
  else some (toString cp)

/-- `Writer::rust_codepoint_type`. -/
def rust_codepoint_type (opts : WriterOptions) : String :=
  if opts.char_literals then "char" else "u32"

/-! ### The provenance header -/

/-- The `argv` vector assembled by `Writer::header`: the executable name
followed by the arguments, any argument containing a line break
redacted. -/
def headerArgv (st : WriterSt) : List String :=
  st.exe :: st.args.map (fun x => if x.contains '\n' then "[snip (arg too long)]" else x)

/-- `Writer::ucd_version` (the crate-version note at the end of the
header). -/
def ucd_version_note : WriterM Unit := fun st =>
  (match st.revision with
   | some rev => do
       wWriteln "// yeslogic-ucd-generate is available on GitHub:"
       wWriteln ("// https://github.com/yeslogic/ucd-generate/tree/" ++ rev)
   | none =>
       wWriteln ("// yeslogic-ucd-generate " ++ st.cargo_version ++ " is available on crates.io.")) st

/-- Body of `Writer::header` once the flag check has passed. -/
def headerBody : WriterM Unit := fun st =>
  (do wWriteln "// DO NOT EDIT THIS FILE. IT WAS AUTOMATICALLY GENERATED BY:"
      wWriteln "//"
      wWriteln ("//   " ++ String.intercalate " " (headerArgv st))
      wWriteln "//"
      (match st.opts.ucd_version with
       | some v => do
           wWriteln ("// Unicode version: " ++ toString v.1 ++ "." ++ toString v.2.1
             ++ "." ++ toString v.2.2 ++ ".")
           wWriteln "//"
       | none => pure ())
      ucd_version_note
      wSetHeader) st

/-- `Writer::header`: write the provenance header on the first call,
nothing afterwards. -/
def header : WriterM Unit := fun st =>
  if st.wrote_header then (.ok (), st) else headerBody st

/-- `Writer::separator`: `write!(self.wtr, "\n")`. -/
def separator : WriterM Unit := wWrite "\n"

/-! ### FST framing (`Writer::fst`) and trie emission -/

/-- `Writer::fst`: write the serialized FST to `<dir>/<name>.fst` and emit
the lazy loader declaration. -/
def fstW (dir const_name : String) (bytes : List Nat) (map : Bool) : WriterM Unit := do
  let fst_file_name := rust_module_name const_name ++ ".fst"
  wCreateFile (dir ++ "/" ++ fst_file_name) bytes
  let ty := if map then "Map" else "Set"
  wWriteln ("pub static " ++ const_name ++ ": ::once_cell::sync::Lazy<::fst::" ++ ty
    ++ "<&\x27static [u8]>> =")
  wWriteln "  ::once_cell::sync::Lazy::new(|| \x7b"
  wWriteln ("    ::fst::" ++ ty ++ "::from(::fst::raw::Fst::new(")
  wWriteln ("      &include_bytes!(" ++ strRepr fst_file_name ++ ")[..]).unwrap())")
  wWriteln "  \x7d);"

/-- Uppercase hexadecimal rendering (`format!("0x{:X}", x)` body). -/
def hexUpper (n : Nat) : String :=
  String.mk ((Nat.toDigits 16 n).map Char.toUpper)

/-- `Writer::write_slice_u8`. -/
def write_slice_u8 (xs : List Nat) : WriterM Unit :=
  wFor (fun x => wWriteStr (toString x ++ ", ")) xs

/-- `Writer::write_slice_u64`: zero in decimal, everything else in hex. -/
def write_slice_u64 (xs : List Nat) : WriterM Unit :=
  wFor (fun x => if x = 0 then wWriteStr "0, " else wWriteStr ("0x" ++ hexUpper x ++ ", ")) xs

/-- `Writer::trie_set` (the private emission helper for a built trie). -/
def trie_set_w (name : String) (trie : TrieArrays) : WriterM Unit := do
  wWriteln ("pub const " ++ name ++ ": &\x27static ::ucd_trie::TrieSet = &::ucd_trie::TrieSet \x7b")
  wIndent "    "
  wWriteln "  tree1_level1: &["
  write_slice_u64 trie.tree1_level1
  wWriteln "  ],"
  wWriteln "  tree2_level1: &["
  write_slice_u8 trie.tree2_level1
  wWriteln "  ],"
  wWriteln "  tree2_level2: &["
  write_slice_u64 trie.tree2_level2
  wWriteln "  ],"
  wWriteln "  tree3_level1: &["
  write_slice_u8 trie.tree3_level1
  wWriteln "  ],"
  wWriteln "  tree3_level2: &["
  write_slice_u8 trie.tree3_level2
  wWriteln "  ],"
  wWriteln "  tree3_level3: &["
  write_slice_u64 trie.tree3_level3
  wWriteln "  ],"
  wWriteln "\x7d;"

/-! ### Emission operations -/

/-- `Writer::names`. -/
def names_w (names : List String) : WriterM Unit := fun st =>
  (do header
      separator
      let ty :=
        if st.opts.fst_dir.isSome then "::fst::Set<&\x27static [u8]>"
        else if st.opts.trie_set then "&\x27static ::ucd_trie::TrieSet"
        else
          let charty := rust_codepoint_type st.opts
          "&\x27static [(" ++ charty ++ ", " ++ charty ++ ")]"
      let sorted := names.mergeSort (fun a b => a ≤ b)
      wWriteln ("pub const BY_NAME: &\x27static [(&\x27static str, " ++ ty ++ ")] = &[")
      wFor (fun name => wWriteStr ("(" ++ strRepr name ++ ", " ++ rust_const_name name ++ "), "))
        sorted
      wWriteln "];") st

/-- `Writer::ranges_slice`. -/
def ranges_slice (name : String) (table : List (Nat × Nat)) : WriterM Unit := fun st =>
  (do let ty := rust_codepoint_type st.opts
      wWriteln ("pub const " ++ name ++ ": &\x27static [(" ++ ty ++ ", " ++ ty ++ ")] = &[")
      wFor (fun (r : Nat × Nat) =>
        match rust_codepoint st.opts r.1, rust_codepoint st.opts r.2 with
        | some a, some b => wWriteStr ("(" ++ a ++ ", " ++ b ++ "), ")
        | _, _ => pure ()) table
      wWriteln "];") st

/-- `Writer::ranges`: FST, trie or literal-slice emission of a sorted
codepoint set, by configuration. -/
def ranges (ext : Externals) (name : String) (codepoints : List Nat) : WriterM Unit := fun st =>
  (do header
      separator
      let name := rust_const_name name
      (match st.opts.fst_dir with
       | some dir => fstW dir name (ext.fstSetBytes (codepoints.map u32_key)) false
       | none =>
         if st.opts.trie_set then
           match ext.trieFromCodepoints codepoints with
           | .error e => wErr e
           | .ok trie => trie_set_w name trie
         else ranges_slice name (to_ranges codepoints))
      wFlush) st

/-- `Writer::ranges_to_unsigned_integer_slice`: the numeric value type is
computed once for the whole table (`num_ty`). -/
def ranges_to_unsigned_integer_slice (name : String) (table : List (Nat × Nat × Nat)) :
    WriterM Unit := fun st =>
  (do let cp_ty := rust_codepoint_type st.opts
      let nty := num_ty table
      wWriteln ("pub const " ++ name ++ ": &\x27static [(" ++ cp_ty ++ ", " ++ cp_ty ++ ", "
        ++ nty ++ ")] = &[")
      wFor (fun (r : Nat × Nat × Nat) =>
        match rust_codepoint st.opts r.1, rust_codepoint st.opts r.2.1 with
        | some a, some b => wWriteStr ("(" ++ a ++ ", " ++ b ++ ", " ++ toString r.2.2 ++ "), ")
        | _, _ => pure ()) table
      wWriteln "];") st

/-- `Writer::ranges_to_unsigned_integer`. -/
def ranges_to_unsigned_integer (ext : Externals) (name : String) (map : List (Nat × Nat)) :
    WriterM Unit := fun st =>
  (do header
      separator
      let name := rust_const_name name
      (match st.opts.fst_dir with
       | some dir => fstW dir name (ext.fstMapBytes (map.map (fun (kv : Nat × Nat) => (u32_key kv.1, kv.2)))) true
       | none => ranges_to_unsigned_integer_slice name (to_range_values map))
      wFlush) st

/-- `Writer::string_to_string`: literal sorted table only; the FST backend
is rejected before anything is written. -/
def string_to_string (name : String) (map : List (String × String)) : WriterM Unit := fun st =>
  if st.opts.fst_dir.isSome then wErr "cannot emit string->string map as an FST" st
  else
    (do header
        separator
        wWriteln ("pub const " ++ rust_const_name name
          ++ ": &\x27static [(&\x27static str, &\x27static str)] = &[")
        wFor (fun (kv : String × String) => wWriteStr ("(" ++ strRepr kv.1 ++ ", " ++ strRepr kv.2 ++ "), ")) map
        wWriteln "];"
        wFlush) st

/-- Loop of `Writer::string_to_string_to_string`, threading the `first`
flag. -/
def sss_loop : Bool → List (String × List (String × String)) → WriterM Unit
  | _, [] => pure ()
  | first, (k1, kv) :: rest => do
      (if first then pure () else wWriteln "")
      wWriteStr ("(" ++ strRepr k1 ++ ", &[")
      wFor (fun (kv2 : String × String) => wWriteStr ("(" ++ strRepr kv2.1 ++ ", " ++ strRepr kv2.2 ++ "), ")) kv
      wWriteStr "]), "
      sss_loop false rest

/-- `Writer::string_to_string_to_string`. -/
def string_to_string_to_string (name : String) (map : List (String × List (String × String))) :
    WriterM Unit := fun st =>
  if st.opts.fst_dir.isSome then wErr "cannot emit string->string map as an FST" st
  else
    (do header
        separator
        wWriteln ("pub const " ++ rust_const_name name
          ++ ": &\x27static [(&\x27static str, &\x27static [(&\x27static str, &\x27static str)])] = &[")
        sss_loop true map
        wWriteln "];"
        wFlush) st

/-- `Writer::codepoint_to_codepoint`. -/
def codepoint_to_codepoint (ext : Externals) (name : String) (map : List (Nat × Nat)) :
    WriterM Unit := fun st =>
  (do header
      separator
      let name := rust_const_name name
      (match st.opts.fst_dir with
       | some dir => fstW dir name (ext.fstMapBytes (map.map (fun (kv : Nat × Nat) => (u32_key kv.1, kv.2)))) true
       | none => ranges_slice name map)
      wFlush) st

/-- Match-arm loop of `Writer::codepoint_to_codepoint_fn`: the zero check
on the destination codepoint aborts the call. -/
def c2cfn_loop : List (Nat × Nat) → WriterM Unit
  | [] => pure ()
  | (f, t) :: rest =>
    if t = 0 then
      wErr "destination codepoint must not be 0 (NUL) for rust-match output format"
    else do
      wWriteStr (toString f ++ " => Some(NonZeroU32::new_unchecked(" ++ toString t ++ ")),")
      wFlushLine
      c2cfn_loop rest

/-- `Writer::codepoint_to_codepoint_fn`. -/
def codepoint_to_codepoint_fn (name : String) (map : List (Nat × Nat)) : WriterM Unit := do
  header
  separator
  wWriteln "use std::num::NonZeroU32;"
  separator
  wWriteln ("pub fn " ++ rust_fn_name name ++ "(cp: u32) -> Option<NonZeroU32> \x7b")
  wIndent "    "
  wWriteStr "// new_unchecked is safe as ucd-generate checks that the destination"
  wFlushLine
  wWriteStr "// codepoint is non-zero at code generation time."
  wFlushLine
  wWriteStr "unsafe \x7b"
  wFlushLine
  wIndent "        "
  wWriteStr "match cp \x7b"
  wFlushLine
  wIndent "            "
  c2cfn_loop map
  wWriteStr "_ => None,"
  wFlushLine
  wIndent "        "
  wWriteStr "\x7d"
  wFlushLine
  wIndent "    "
  wWriteStr "\x7d"
  wFlushLine
  wWriteln "\x7d"
  wFlush

/-- The flat-table padding value: NUL in char-literal style, the all-ones
sentinel otherwise. -/
def flatPadding (opts : WriterOptions) : Nat :=
  if opts.char_literals then 0 else 4294967295

/-- Value rendering and emission for one entry of
`Writer::codepoint_to_codepoints`: all values are rendered before
anything is written; an unrenderable value drops the whole entry
(`continue 'LOOP`). -/
def c2cs_render (kstr : String) (pvs : List Nat) (slicePre : String) : WriterM Unit := fun st =>
  (if (pvs.map (rust_codepoint st.opts)).all Option.isSome then
    let vstrs := pvs.filterMap (rust_codepoint st.opts)
    do
      wWriteStr ("(" ++ kstr ++ ", " ++ slicePre ++ "[")
      (if vstrs.length = 1 then wWriteStr (vstrs.headD "")
       else wFor (fun v => wWriteStr (v ++ ", ")) vstrs)
      wWriteStr "]), "
   else pure ()) st

/-- Flat-table handling of one entry of `Writer::codepoint_to_codepoints`:
the arity check, the padding-collision check, then padding with
`flatPadding` (which stands for the `let flat_padding` of the source) and
value emission. -/
def c2cs_entry_flat (kstr : String) (vs : List Nat) : WriterM Unit := fun st =>
  (if vs.length > 3 then
     wErr "flat-table representation cannot be used when value arrays may contain more than 3 entries"
   else if vs.contains (flatPadding st.opts) then
     wErr "flat-table --chars representation cannot be used when the NUL character is present in the value array. (This error probably can be fixed by removing `--chars`)"
   else c2cs_render kstr ((vs ++ List.replicate 3 (flatPadding st.opts)).take 3) "") st

/-- One entry of the `'LOOP` of `Writer::codepoint_to_codepoints`: key
rendering, then (in flat mode) the checks and padding, then value
emission. -/
def c2cs_entry (flat : Bool) (k : Nat) (vs : List Nat) : WriterM Unit := fun st =>
  (match rust_codepoint st.opts k with
   | none => pure ()
   | some kstr =>
     if flat then c2cs_entry_flat kstr vs
     else c2cs_render kstr vs "&") st

/-- `Writer::codepoint_to_codepoints`. -/
def codepoint_to_codepoints (name : String) (map : List (Nat × List Nat))
    (emit_flat_table : Bool) : WriterM Unit := fun st =>
  if st.opts.fst_dir.isSome then wErr "cannot emit codepoint->codepoints map as an FST" st
  else
    (do header
        separator
        let name := rust_const_name name
        let ty := rust_codepoint_type st.opts
        (if emit_flat_table then
          wWriteln ("pub const " ++ name ++ ": &\x27static [(" ++ ty ++ ", [" ++ ty ++ "; 3])] = &[")
        else
          wWriteln ("pub const " ++ name ++ ": &\x27static [(" ++ ty ++ ", &\x27static [" ++ ty ++ "])] = &["))
        wFor (fun (kv : Nat × List Nat) => c2cs_entry emit_flat_table kv.1 kv.2) map
        wWriteln "];"
        wFlush) st

/-- `Writer::multi_codepoint_to_codepoint`: values already arrive as
sorted duplicate-free lists (the `BTreeSet` to `Vec` conversion of the
source is the identity here). -/
def multi_codepoint_to_codepoint (name : String) (map : List (Nat × List Nat))
    (emit_flat_table : Bool) : WriterM Unit := fun st =>
  if st.opts.fst_dir.isSome then wErr "cannot emit codepoint multimaps as an FST" st
  else codepoint_to_codepoints name map emit_flat_table st

/-- The packing loop of the FST branch of `Writer::codepoint_to_string`:
pack each string value, failing the whole call at the first failure, and
collect the big-endian key / packed value pairs inserted into the map
builder. -/
def pack_pairs : List (Nat × List Nat) → Except String (List (List Nat × Nat))
  | [] => .ok []
  | (k, v) :: rest =>
    match pack_str v with
    | .error e => .error e
    | .ok pv =>
      match pack_pairs rest with
      | .error e => .error e
      | .ok ps => .ok ((u32_key k, pv) :: ps)

/-- `Writer::codepoint_to_string_slice`; string values are carried as
UTF-8 byte lists. -/
def codepoint_to_string_slice (name : String) (table : List (Nat × List Nat)) :
    WriterM Unit := fun st =>
  (do let ty := rust_codepoint_type st.opts
      wWriteln ("pub const " ++ name ++ ": &\x27static [(" ++ ty ++ ", &\x27static str)] = &[")
      wFor (fun (kv : Nat × List Nat) =>
        match rust_codepoint st.opts kv.1 with
        | some cp => wWriteStr ("(" ++ cp ++ ", " ++ byteStrRepr kv.2 ++ "), ")
        | none => pure ()) table
      wWriteln "];") st

/-- `Writer::codepoint_to_string`: the FST path packs every string value
into a `u64`; the literal path emits a quoted-string table. -/
def codepoint_to_string (ext : Externals) (name : String) (map : List (Nat × List Nat)) :
    WriterM Unit := fun st =>
  (do header
      separator
      let name := rust_const_name name
      (match st.opts.fst_dir with
       | some dir =>
         match pack_pairs map with
         | .error e => wErr e
         | .ok pairs => fstW dir name (ext.fstMapBytes pairs) true
       | none => codepoint_to_string_slice name map)
      wFlush) st

/-- UTF-8 bytes of a string (`str::as_bytes`). -/
def strBytes (s : String) : List Nat := s.toUTF8.toList.map UInt8.toNat

/-- `Writer::string_to_codepoint_slice`. -/
def string_to_codepoint_slice (name : String) (table : List (String × Nat)) :
    WriterM Unit := fun st =>
  (do let ty := rust_codepoint_type st.opts
      wWriteln ("pub const " ++ name ++ ": &\x27static [(&\x27static str, " ++ ty ++ ")] = &[")
      wFor (fun (kv : String × Nat) =>
        match rust_codepoint st.opts kv.2 with
        | some cp => wWriteStr ("(" ++ strRepr kv.1 ++ ", " ++ cp ++ "), ")
        | none => pure ()) table
      wWriteln "];") st

/-- `Writer::string_to_codepoint`. -/
def string_to_codepoint (ext : Externals) (name : String) (map : List (String × Nat)) :
    WriterM Unit := fun st =>
  (do header
      separator
      let name := rust_const_name name
      (match st.opts.fst_dir with
       | some dir => fstW dir name (ext.fstMapBytes (map.map (fun (kv : String × Nat) => (strBytes kv.1, kv.2)))) true
       | none => string_to_codepoint_slice name map)
      wFlush) st

/-- `Writer::string_to_u64_slice`. -/
def string_to_u64_slice (name : String) (table : List (String × Nat)) : WriterM Unit := do
  wWriteln ("pub const " ++ name ++ ": &\x27static [(&\x27static str, u64)] = &[")
  wFor (fun (kv : String × Nat) => wWriteStr ("(" ++ strRepr kv.1 ++ ", " ++ toString kv.2 ++ "), ")) table
  wWriteln "];"

/-- `Writer::string_to_u64`. -/
def string_to_u64 (ext : Externals) (name : String) (map : List (String × Nat)) :
    WriterM Unit := fun st =>
  (do header
      separator
      let name := rust_const_name name
      (match st.opts.fst_dir with
       | some dir => fstW dir name (ext.fstMapBytes (map.map (fun (kv : String × Nat) => (strBytes kv.1, kv.2)))) true
       | none => string_to_u64_slice name map)
      wFlush) st

/-! ### Builder constructors -/

/-- Builder `WriterBuilder` from `writer.rs` (a newtype around the
options). -/
structure WriterBuilder where
  opts : WriterOptions
deriving DecidableEq, Repr

/-- `WriterBuilder::new`: the default configuration (79 columns, numeric
literals, no FST/trie/DFA output, no version stamp). -/
def WriterBuilder.new (name : String) : WriterBuilder :=
  ⟨{ name := name, columns := 79, char_literals := false, fst_dir := none,
     trie_set := false, dfa_dir := none, ucd_version := none }⟩

/-- `WriterBuilder::columns`. -/
def WriterBuilder.columns (b : WriterBuilder) (n : Nat) : WriterBuilder :=
  ⟨{ b.opts with columns := n }⟩

/-- `WriterBuilder::char_literals`. -/
def WriterBuilder.char_literals (b : WriterBuilder) (yes : Bool) : WriterBuilder :=
  ⟨{ b.opts with char_literals := yes }⟩

/-- `WriterBuilder::trie_set`. -/
def WriterBuilder.trie_set (b : WriterBuilder) (yes : Bool) : WriterBuilder :=
  ⟨{ b.opts with trie_set := yes }⟩

/-- `WriterBuilder::ucd_version`. -/
def WriterBuilder.ucd_version (b : WriterBuilder) (major minor patch : Nat) : WriterBuilder :=
  ⟨{ b.opts with ucd_version := some (major, minor, patch) }⟩

/-- `LineWriter::new`: note that the column budget is the hard-coded 79,
whatever the builder was configured with. -/
def LineWriter.new : LineWriterSt :=
  { out := [], line := "", columns := 79, indent := "  " }

/-- `WriterBuilder::from_writer`: a fresh writer over a caller-supplied
sink.  The trailing arguments model the ambient process environment. -/
def from_writer (b : WriterBuilder) (exe : String) (args : List String)
    (revision : Option String) (cargo_version : String) : WriterSt :=
  { wtr := LineWriter.new, wrote_header := false, opts := b.opts, files := [],
    exe := exe, args := args, revision := revision, cargo_version := cargo_version }

/-- `WriterBuilder::from_fst_dir`: enable the FST backend and create the
`<dir>/<module>.rs` sink file. -/
def from_fst_dir (b : WriterBuilder) (fst_dir : String) (exe : String) (args : List String)
    (revision : Option String) (cargo_version : String) : WriterSt :=
  { wtr := LineWriter.new, wrote_header := false,
    opts := { b.opts with fst_dir := some fst_dir },
    files := [(fst_dir ++ "/" ++ rust_module_name b.opts.name ++ ".rs", [])],
    exe := exe, args := args, revision := revision, cargo_version := cargo_version }

/-! ### The catalog of emission calls modelled here.

The automaton/regex exports (`dense_dfa`, `sparse_dfa`, `dense_regex`,
`sparse_regex`) and the enum-table wrappers route through external DFA
serialization services and `BTreeMap` merging; they are not part of this
catalog. -/

/-- One emission call on a writer, with its arguments. -/
inductive EmitCall where
  | names (names : List String)
  | ranges (name : String) (codepoints : List Nat)
  | rangesToUnsignedInteger (name : String) (map : List (Nat × Nat))
  | stringToString (name : String) (map : List (String × String))
  | stringToStringToString (name : String) (map : List (String × List (String × String)))
  | codepointToCodepoint (name : String) (map : List (Nat × Nat))
  | codepointToCodepointFn (name : String) (map : List (Nat × Nat))
  | multiCodepointToCodepoint (name : String) (map : List (Nat × List Nat)) (flat : Bool)
  | codepointToCodepoints (name : String) (map : List (Nat × List Nat)) (flat : Bool)
  | codepointToString (name : String) (map : List (Nat × List Nat))
  | stringToCodepoint (name : String) (map : List (String × Nat))
  | stringToU64 (name : String) (map : List (String × Nat))

/-- Run one emission call. -/
def EmitCall.run (ext : Externals) : EmitCall → WriterM Unit
  | .names l => names_w l
  | .ranges n cps => UcdWriter.ranges ext n cps
  | .rangesToUnsignedInteger n m => ranges_to_unsigned_integer ext n m
  | .stringToString n m => string_to_string n m
  | .stringToStringToString n m => string_to_string_to_string n m
  | .codepointToCodepoint n m => codepoint_to_codepoint ext n m
  | .codepointToCodepointFn n m => codepoint_to_codepoint_fn n m
  | .multiCodepointToCodepoint n m f => multi_codepoint_to_codepoint n m f
  | .codepointToCodepoints n m f => codepoint_to_codepoints n m f
  | .codepointToString n m => codepoint_to_string ext n m
  | .stringToCodepoint n m => string_to_codepoint ext n m
  | .stringToU64 n m => string_to_u64 ext n m

/-! ### Concrete instances used by the closed theorems -/

/-- A trivial instantiation of the external collaborators. -/
def ext0 : Externals :=
  { trieFromCodepoints := fun _ => .ok ⟨[], [], [], [], [], []⟩,
    fstSetBytes := fun _ => [],
    fstMapBytes := fun _ => [] }

/-- A fresh stdout-style writer with a concrete environment. -/
def testWriter : WriterSt :=
  from_writer (WriterBuilder.new "test") "ucd-generate" [] none "0.2.9"

/-- A fresh FST-backed writer with a concrete environment. -/
def testFstWriter : WriterSt :=
  from_fst_dir (WriterBuilder.new "test") "out" "ucd-generate" [] none "0.2.9"

/-- A fresh char-literal-style writer with a concrete environment. -/
def testCharWriter : WriterSt :=
  from_writer ((WriterBuilder.new "test").char_literals true) "ucd-generate" [] none "0.2.9"

/-! ### Verification-side definitions -/

/-- The first chunk of the provenance header; it identifies a header in the
output stream (no other write of any modelled operation can produce this
chunk). -/
def headerMarker : String :=
  "// DO NOT EDIT THIS FILE. IT WAS AUTOMATICALLY GENERATED BY:\n"

/-- Number of header chunks in an output stream. -/
def countMarker (out : List String) : Nat := out.count headerMarker

/-- Structural state of a line writer reachable by the modelled
operations: the pending line is empty or begins with a space (it always
begins with the indent), and the indent begins with a space. -/
def LineOk (lw : LineWriterSt) : Prop :=
  (lw.line = "" ∨ lw.line.data.head? = some ' ') ∧ lw.indent.data.head? = some ' '

/-- The header invariant: the output contains the provenance header
exactly once after the `wrote_header` flag is set and never before. -/
def Inv (st : WriterSt) : Prop :=
  LineOk st.wtr ∧ countMarker st.wtr.out = (if st.wrote_header then 1 else 0)

/-- A writer computation only ever appends to the output sink. -/
def AppendOnly {α : Type} (m : WriterM α) : Prop :=
  ∀ st, ∃ d, ((m st).2).wtr.out = st.wtr.out ++ d

/-- A writer computation that never writes a header chunk, keeps the line
writer structurally sound and does not touch the header flag — every step
of every modelled operation apart from the header routine itself. -/
def Steady {α : Type} (m : WriterM α) : Prop :=
  ∀ st, LineOk st.wtr →
    LineOk (m st).2.wtr ∧ countMarker (m st).2.wtr.out = countMarker st.wtr.out ∧
    (m st).2.wrote_header = st.wrote_header

/-- A writer computation that always succeeds, keeps the line writer
sound, appends exactly `k` header chunks to the output, and maps the
header flag through `fl` — the building block of the header routine. -/
def HRun (m : WriterM Unit) (k : Nat) (fl : Bool → Bool) : Prop :=
  ∀ st, LineOk st.wtr →
    (m st).1 = .ok () ∧ LineOk (m st).2.wtr ∧
    countMarker (m st).2.wtr.out = countMarker st.wtr.out + k ∧
    (m st).2.wrote_header = fl st.wrote_header

end UcdWriter

deriving instance DecidableEq for Except

namespace UcdWriter

/-! ## Theorems -/

/-! ### String packer: round-trip and rejection (claims C1 and C7) -/

theorem lor_shift_eq_add (v x k : Nat) (hv : v < 2 ^ k) :
    v ||| (x <<< k) = v + x * 2 ^ k := by
  have h := Nat.mul_add_lt_is_or hv x
  calc v ||| x <<< k = v ||| 2 ^ k * x := by rw [Nat.shiftLeft_eq, Nat.mul_comm]
    _ = 2 ^ k * x ||| v := Nat.or_comm _ _
    _ = 2 ^ k * x + v := h.symm
    _ = v + x * 2 ^ k := by ring

theorem pack_loop_eq_packNum (s : List Nat) : ∀ (i v : Nat),
    (∀ b ∈ s, b < 256) → v < 2 ^ (8 * i) →
    pack_loop s i v = v + packNum s * 2 ^ (8 * i) := by
  induction s with
  | nil => intro i v _ _; simp [pack_loop, packNum]
  | cons b bs ih =>
    intro i v hb hv
    have hb256 : b < 256 := hb b (by simp)
    have hstep : v ||| b <<< (8 * i) = v + b * 2 ^ (8 * i) :=
      lor_shift_eq_add v b (8 * i) hv
    have hnext : v + b * 2 ^ (8 * i) < 2 ^ (8 * (i + 1)) := by
      have h1 : v + b * 2 ^ (8 * i) < (b + 1) * 2 ^ (8 * i) := by
        have := Nat.pos_pow_of_pos (8 * i) (show 0 < 2 by norm_num)
        nlinarith
      have h2 : (b + 1) * 2 ^ (8 * i) ≤ 256 * 2 ^ (8 * i) :=
        Nat.mul_le_mul_right _ (by omega)
      have h3 : (256 : Nat) * 2 ^ (8 * i) = 2 ^ (8 * (i + 1)) := by
        rw [show 8 * (i + 1) = 8 * i + 8 by ring, pow_add]; ring
      omega
    calc pack_loop (b :: bs) i v
        = pack_loop bs (i + 1) (v ||| b <<< (8 * i)) := rfl
      _ = (v + b * 2 ^ (8 * i)) + packNum bs * 2 ^ (8 * (i + 1)) := by
          rw [hstep]
          exact ih (i + 1) _ (fun x hx => hb x (by simp [hx])) hnext
      _ = v + packNum (b :: bs) * 2 ^ (8 * i) := by
          have h3 : (2 : Nat) ^ (8 * (i + 1)) = 2 ^ (8 * i) * 256 := by
            rw [show 8 * (i + 1) = 8 * i + 8 by ring, pow_add]; norm_num
          simp only [packNum]
          rw [h3]; ring

theorem pack_str_ok (s : List Nat) (h8 : s.length ≤ 8) (h0 : ¬ 0 ∈ s) :
    (∀ b ∈ s, b < 256) → pack_str s = .ok (packNum s) := by
  intro hb
  have hc : s.contains 0 = false := by
    simp only [List.contains]
    exact Bool.eq_false_iff.mpr (fun h => h0 (List.elem_iff.mp h))
  simp only [pack_str, hc, Bool.false_eq_true, if_false, if_neg (by omega : ¬ s.length > 8)]
  have h := pack_loop_eq_packNum s 0 0 hb (by norm_num)
  simp [h]

theorem unpack_packNum (s : List Nat) (h : ∀ b ∈ s, b < 256 ∧ b ≠ 0) :
    unpack_str (packNum s) = s := by
  induction s with
  | nil => simp [packNum, unpack_str]
  | cons b bs ih =>
    have hb := h b (by simp)
    have hne : b + 256 * packNum bs ≠ 0 := by omega
    rw [packNum, unpack_str, dif_neg hne]
    have hand : (b + 256 * packNum bs) &&& 0xFF = b := by
      have h255 : (0xFF : Nat) = 2 ^ 8 - 1 := by norm_num
      rw [h255, Nat.and_pow_two_sub_one_eq_mod]
      have h2 : (2 : Nat) ^ 8 = 256 := by norm_num
      rw [h2]; omega
    have hshift : (b + 256 * packNum bs) >>> 8 = packNum bs := by
      rw [Nat.shiftRight_eq_div_pow]
      have h2 : (2 : Nat) ^ 8 = 256 := by norm_num
      rw [h2]; omega
    rw [hand, hshift, ih (fun x hx => h x (by simp [hx]))]

/-- Claim C1: for every string `s` of byte length at most 8 containing no
zero byte, packing succeeds and unpacking the resulting `u64` (reading
bytes from the least significant byte upward, stopping at a zero byte)
reproduces exactly the bytes of `s`: `unpack_str` is a left inverse of
`pack_str` on this domain. -/
theorem pack_unpack_roundtrip (s : List Nat) (h8 : s.length ≤ 8)
    (hb : ∀ b ∈ s, b < 256 ∧ b ≠ 0) :
    ∃ v, pack_str s = .ok v ∧ unpack_str v = s := by
  refine ⟨packNum s, ?_, ?_⟩
  · exact pack_str_ok s h8 (fun h0 => (hb 0 h0).2 rfl) (fun b h => (hb b h).1)
  · exact unpack_packNum s hb

/-- Witness for C1 at the concrete three-byte string `"YEO"`. -/
theorem pack_unpack_roundtrip_witness :
    ∃ v, pack_str [89, 69, 79] = .ok v ∧ unpack_str v = [89, 69, 79] :=
  pack_unpack_roundtrip [89, 69, 79] (by decide) (by decide)

theorem packMsgs_ne (s : List Nat) : packTooLongMsg s ≠ packNulMsg s := by
  intro h
  have hd := congrArg String.data h
  simp only [packTooLongMsg, packNulMsg, String.data_append] at hd
  have h1 := List.append_cancel_left hd
  exact absurd (congrArg List.length h1) (by decide)

/-- Claim C7: `pack_str` fails with the length-exceeded error exactly when
its input exceeds 8 bytes (e.g. on the 9-byte `"ABCDEFGHI"`), fails with
the embedded-terminator error when a byte is zero (and the input is not
over-long, the length check coming first), and succeeds on the empty
string, producing a value that unpacks to the empty string. -/
theorem pack_str_rejection :
    (∀ s : List Nat, pack_str s = .error (packTooLongMsg s) ↔ s.length > 8) ∧
    (∀ s : List Nat, s.length ≤ 8 → (pack_str s = .error (packNulMsg s) ↔ 0 ∈ s)) ∧
    (pack_str [] = .ok 0 ∧ unpack_str 0 = []) ∧
    pack_str [65, 66, 67, 68, 69, 70, 71, 72, 73]
      = .error (packTooLongMsg [65, 66, 67, 68, 69, 70, 71, 72, 73]) ∧
    pack_str [65, 66, 0, 67, 68] = .error (packNulMsg [65, 66, 0, 67, 68]) := by
  refine ⟨?_, ?_, ⟨by decide, by simp [unpack_str]⟩, by decide, by decide⟩
  · intro s
    constructor
    · intro h
      by_contra hlen
      rw [pack_str, if_neg hlen] at h
      by_cases hc : s.contains 0 = true
      · rw [if_pos hc] at h
        have heq : packNulMsg s = packTooLongMsg s := by simpa using h
        exact packMsgs_ne s heq.symm
      · rw [if_neg hc] at h
        simp at h
    · intro h
      rw [pack_str, if_pos h]
  · intro s hlen
    constructor
    · intro h
      rw [pack_str, if_neg (by omega : ¬ s.length > 8)] at h
      by_cases hc : s.contains 0 = true
      · exact List.elem_iff.mp hc
      · rw [if_neg hc] at h; simp at h
    · intro h
      have hc : s.contains 0 = true := by
        simpa [List.contains] using List.elem_iff.mpr h
      rw [pack_str, if_neg (by omega : ¬ s.length > 8), if_pos hc]

/-- Witness for C7 at the concrete inputs of the test suite. -/
theorem pack_str_rejection_witness :
    pack_str [65, 66, 0, 67, 68] = .error (packNulMsg [65, 66, 0, 67, 68]) :=
  (pack_str_rejection.2.1 [65, 66, 0, 67, 68] (by decide)).mpr (by decide)

/-! ### State-id width selection (claim C5) -/

/-- Claim C5 counterexample: at state-id width 3 the width selector does
not return any error value to the caller — it hits the `panic!` arm, i.e.
a process abort, contradicting the claim that the condition is surfaced as
a `ConfigurationUnsupported` error result and that no code path in the
core panics. -/
theorem rust_uint_type_panic_counterexample :
    rust_uint_type 3 = .panicked "unsupported DFA state id size: 3" ∧
    ∀ t, rust_uint_type 3 ≠ PanicOr.value t := by
  refine ⟨by decide, ?_⟩
  intro t h
  simp [rust_uint_type] at h

/-- Claim C5 as amended: widths 1, 2, 4 and 8 select `u8`/`u16`/`u32`/
`u64`; for every other width the DFA width selector aborts the process
via `panic!` ("unsupported DFA state id size") rather than returning an
error result. -/
theorem rust_uint_type_spec (s : Nat) (h1 : s ≠ 1) (h2 : s ≠ 2) (h4 : s ≠ 4) (h8 : s ≠ 8) :
    (rust_uint_type 1 = .value "u8" ∧ rust_uint_type 2 = .value "u16" ∧
     rust_uint_type 4 = .value "u32" ∧ rust_uint_type 8 = .value "u64") ∧
    rust_uint_type s = .panicked ("unsupported DFA state id size: " ++ toString s) := by
  refine ⟨⟨rfl, rfl, rfl, rfl⟩, ?_⟩
  unfold rust_uint_type
  split <;> simp_all

/-- Witness for the amended C5 at width 3. -/
theorem rust_uint_type_spec_witness :
    rust_uint_type 3 = .panicked ("unsupported DFA state id size: " ++ toString 3) :=
  (rust_uint_type_spec 3 (by decide) (by decide) (by decide) (by decide)).2

/-! ### Numeric codepoint rendering (claim C10) -/

/-- Claim C10: in numeric-literal style, rendering a codepoint always
succeeds (no entry is dropped), yielding the token `!0` for the all-ones
value `0xFFFFFFFF` and the decimal string for every other value —
independent of flat-table mode, which `rust_codepoint` never consults. -/
theorem numeric_style_rendering (opts : WriterOptions) (cp : Nat)
    (hnum : opts.char_literals = false) (hcp : cp < 4294967296) :
    rust_codepoint opts cp = some (if cp = 4294967295 then "!0" else toString cp) := by
  simp only [rust_codepoint, hnum, Bool.false_eq_true, if_false]
  by_cases h : cp = 4294967295 <;> simp [h]

/-- Witness for C10 at the sentinel and at an ordinary codepoint. -/
theorem numeric_style_rendering_witness :
    rust_codepoint (WriterBuilder.new "t").opts 4294967295 = some "!0" ∧
    rust_codepoint (WriterBuilder.new "t").opts 97 = some "97" := by
  constructor
  · have h := numeric_style_rendering (WriterBuilder.new "t").opts 4294967295 rfl (by norm_num)
    simpa using h
  · have h := numeric_style_rendering (WriterBuilder.new "t").opts 97 rfl (by norm_num)
    simpa using h

/-! ### Surrogate handling by literal style (claim C4) -/

set_option maxHeartbeats 2000000 in
/-- Claim C4 counterexample: under the char-literal style the surrogate
codepoint `0xD800` is not passed through: `rust_codepoint` returns `none`
and the emitted range table for the set `{0xD800}` contains no entry at
all between its opening and closing brackets — the entry is silently
dropped, contradicting tolerance under every configured style. -/
theorem char_style_drops_surrogate_counterexample :
    rust_codepoint testCharWriter.opts 0xD800 = none ∧
    (UcdWriter.ranges ext0 "a" [0xD800] testCharWriter).1 = .ok () ∧
    (UcdWriter.ranges ext0 "a" [0xD800] testCharWriter).2.wtr.out =
      ["// DO NOT EDIT THIS FILE. IT WAS AUTOMATICALLY GENERATED BY:\n", "//\n",
       "//   ucd-generate\n", "//\n",
       "// yeslogic-ucd-generate 0.2.9 is available on crates.io.\n", "\n",
       "pub const A: &\x27static [(char, char)] = &[\n", "];\n"] := by decide

/-- Claim C4 as amended: in numeric-literal style every 32-bit value,
surrogates included, is rendered (never dropped or rejected); in
char-literal style the surrogate-range values `0xD800`–`0xDFFF` are
silently dropped. -/
theorem codepoint_style_tolerance :
    (∀ (opts : WriterOptions) (cp : Nat), opts.char_literals = false →
        (rust_codepoint opts cp).isSome = true) ∧
    (∀ (opts : WriterOptions) (cp : Nat), opts.char_literals = true →
        0xD800 ≤ cp → cp ≤ 0xDFFF → rust_codepoint opts cp = none) := by
  constructor
  · intro opts cp h
    simp only [rust_codepoint, h, Bool.false_eq_true, if_false]
    split <;> simp
  · intro opts cp h h1 h2
    have hc : char_from_u32 cp = none := by
      rw [char_from_u32, if_pos (Or.inl ⟨h1, h2⟩)]
    simp [rust_codepoint, h, hc]

/-- Witness for the amended C4 at `0xD800` under both styles. -/
theorem codepoint_style_tolerance_witness :
    (rust_codepoint testWriter.opts 0xD800).isSome = true ∧
    rust_codepoint testCharWriter.opts 0xD800 = none :=
  ⟨codepoint_style_tolerance.1 testWriter.opts 0xD800 rfl,
   codepoint_style_tolerance.2 testCharWriter.opts 0xD800 rfl (by norm_num) (by norm_num)⟩

/-! ### The configured column width is never applied (claim C3) -/

/-- Claim C3 (code bug): the builder stores the configured column width
(here 10), but `from_writer` constructs the line writer with the
hard-coded budget 79 and never reads the option, so two six-byte tokens
(twelve bytes of content, beyond the configured budget of 10) are
accumulated on one pending line without any flush. -/
theorem columns_option_ignored :
    ((WriterBuilder.new "test").columns 10).opts.columns = 10 ∧
    (from_writer ((WriterBuilder.new "test").columns 10) "ucd-generate" [] none "0.2.9").wtr.columns
      = 79 ∧
    ((wWriteStr "aaaaaa" >>= fun _ => wWriteStr "aaaaaa")
        (from_writer ((WriterBuilder.new "test").columns 10) "ucd-generate" [] none "0.2.9")).2.wtr.out
      = [] ∧
    ((wWriteStr "aaaaaa" >>= fun _ => wWriteStr "aaaaaa")
        (from_writer ((WriterBuilder.new "test").columns 10) "ucd-generate" [] none "0.2.9")).2.wtr.line
      = "  aaaaaaaaaaaa" := by decide

/-! ### Append-only behaviour of the writer primitives -/

theorem run_pure {α : Type} (a : α) (st : WriterSt) : (pure a : WriterM α) st = (.ok a, st) := rfl

theorem run_bind {α β : Type} (m : WriterM α) (f : α → WriterM β) (st : WriterSt) :
    (m >>= f) st = match m st with
      | (.ok a, st1) => f a st1
      | (.error e, st1) => (.error e, st1) := rfl

theorem flushP_out (lw : LineWriterSt) : ∃ d, lw.flushP.out = lw.out ++ d := by
  unfold LineWriterSt.flushP
  split
  · exact ⟨[], by simp⟩
  · exact ⟨_, rfl⟩

theorem writeStrP_out (lw : LineWriterSt) (s : String) :
    ∃ d, (lw.writeStrP s).out = lw.out ++ d := by
  simp only [LineWriterSt.writeStrP]
  split
  · obtain ⟨d, hd⟩ := flushP_out lw
    split <;> exact ⟨d, by simpa using hd⟩
  · split <;> exact ⟨[], by simp⟩

theorem writeP_out (lw : LineWriterSt) (buf : String) :
    ∃ d, (lw.writeP buf).out = lw.out ++ d := by
  simp only [LineWriterSt.writeP]
  obtain ⟨d, hd⟩ := flushP_out lw
  exact ⟨d ++ [buf], by simp [hd]⟩

theorem appendOnly_pure {α : Type} (a : α) : AppendOnly (pure a : WriterM α) :=
  fun _ => ⟨[], by simp [run_pure]⟩

theorem appendOnly_bind {α β : Type} {m : WriterM α} {f : α → WriterM β}
    (hm : AppendOnly m) (hf : ∀ a, AppendOnly (f a)) : AppendOnly (m >>= f) := by
  intro st
  rw [run_bind]
  obtain ⟨d1, hd1⟩ := hm st
  rcases hrun : m st with ⟨r, st1⟩
  rw [hrun] at hd1
  cases r with
  | ok a =>
    obtain ⟨d2, hd2⟩ := hf a st1
    replace hd1 : st1.wtr.out = st.wtr.out ++ d1 := hd1
    exact ⟨d1 ++ d2, by simp [hd2, hd1]⟩
  | error e =>
    replace hd1 : st1.wtr.out = st.wtr.out ++ d1 := hd1
    exact ⟨d1, hd1⟩

theorem appendOnly_wErr {α : Type} (msg : String) : AppendOnly (wErr msg : WriterM α) :=
  fun _ => ⟨[], by simp [wErr]⟩

theorem appendOnly_wFlushLine : AppendOnly wFlushLine :=
  fun st => flushP_out st.wtr

theorem appendOnly_wWriteStr (s : String) : AppendOnly (wWriteStr s) :=
  fun st => writeStrP_out st.wtr s

theorem appendOnly_wWrite (buf : String) : AppendOnly (wWrite buf) :=
  fun st => writeP_out st.wtr buf

theorem appendOnly_wWriteln (s : String) : AppendOnly (wWriteln s) :=
  appendOnly_wWrite (s ++ "\n")

theorem appendOnly_wIndent (s : String) : AppendOnly (wIndent s) :=
  fun _ => ⟨[], by simp [wIndent]⟩

theorem appendOnly_wSetHeader : AppendOnly wSetHeader :=
  fun _ => ⟨[], by simp [wSetHeader]⟩

theorem appendOnly_wCreateFile (path : String) (bytes : List Nat) :
    AppendOnly (wCreateFile path bytes) :=
  fun _ => ⟨[], by simp [wCreateFile]⟩

theorem appendOnly_wFor {α : Type} (f : α → WriterM Unit) (l : List α)
    (hf : ∀ x, AppendOnly (f x)) : AppendOnly (wFor f l) := by
  induction l with
  | nil => exact appendOnly_pure ()
  | cons x xs ih => exact appendOnly_bind (hf x) (fun _ => ih)

/-! ### Width selection (claim C6) -/

theorem nat_max_eq_or (a b : Nat) : max a b = a ∨ max a b = b := by
  rcases Nat.le_total b a with h | h
  · exact Or.inl (Nat.max_eq_left h)
  · exact Or.inr (Nat.max_eq_right h)

theorem max?_eq_some_of_mem_ub {l : List Nat} {m : Nat} (hm : m ∈ l)
    (hub : ∀ x ∈ l, x ≤ m) : l.max? = some m := by
  refine (List.max?_eq_some_iff ?_ ?_ ?_).mpr ⟨hm, hub⟩
  · exact fun a => Nat.le_refl a
  · exact nat_max_eq_or
  · exact fun a b c => Nat.max_le

/-- Claim C6: the width selector maps 0 and 255 to `u8`, 256 to `u16`,
65536 to `u32` and `2^32` to `u64`; an empty run table defaults to `u8`;
and the emitted table header uses the type computed once per table from
the true maximum value across all runs. -/
theorem width_selection :
    smallest_unsigned_type 0 = "u8" ∧ smallest_unsigned_type 255 = "u8" ∧
    smallest_unsigned_type 256 = "u16" ∧ smallest_unsigned_type 65536 = "u32" ∧
    smallest_unsigned_type 4294967296 = "u64" ∧
    num_ty [] = "u8" ∧
    (∀ (table : List (Nat × Nat × Nat)) (m : Nat),
        m ∈ table.map (fun r => r.2.2) → (∀ x ∈ table.map (fun r => r.2.2), x ≤ m) →
        num_ty table = smallest_unsigned_type m) ∧
    (∀ (name : String) (table : List (Nat × Nat × Nat)) (st : WriterSt),
        st.wtr.line = "" → ∃ rest,
        ((ranges_to_unsigned_integer_slice name table) st).2.wtr.out
          = st.wtr.out ++ ((("pub const " ++ name ++ ": &\x27static [("
              ++ rust_codepoint_type st.opts ++ ", " ++ rust_codepoint_type st.opts ++ ", "
              ++ num_ty table ++ ")] = &[") ++ "\n") :: rest)) := by
  refine ⟨by decide, by decide, by decide, by decide, by decide, by decide, ?_, ?_⟩
  · intro table m hm hub
    unfold num_ty
    rw [max?_eq_some_of_mem_ub hm hub]
  · intro name table st hline
    unfold ranges_to_unsigned_integer_slice
    rw [run_bind]
    have hw : wWriteln ("pub const " ++ name ++ ": &\x27static [("
        ++ rust_codepoint_type st.opts ++ ", " ++ rust_codepoint_type st.opts ++ ", "
        ++ num_ty table ++ ")] = &[") st
      = (.ok (), { st with wtr := { st.wtr with
          out := st.wtr.out ++ [("pub const " ++ name ++ ": &\x27static [("
            ++ rust_codepoint_type st.opts ++ ", " ++ rust_codepoint_type st.opts ++ ", "
            ++ num_ty table ++ ")] = &[") ++ "\n"] } }) := by
      simp [wWriteln, wWrite, LineWriterSt.writeP, LineWriterSt.flushP, hline]
    rw [hw]
    have hrest : AppendOnly ((wFor (fun (r : Nat × Nat × Nat) =>
        match rust_codepoint st.opts r.1, rust_codepoint st.opts r.2.1 with
        | some a, some b => wWriteStr ("(" ++ a ++ ", " ++ b ++ ", " ++ toString r.2.2 ++ "), ")
        | _, _ => pure ()) table) >>= fun _ => wWriteln "];") := by
      refine appendOnly_bind (appendOnly_wFor _ _ ?_) (fun _ => appendOnly_wWriteln _)
      intro r
      rcases rust_codepoint st.opts r.1 with _ | a <;> rcases rust_codepoint st.opts r.2.1 with _ | b
      · exact appendOnly_pure ()
      · exact appendOnly_pure ()
      · exact appendOnly_pure ()
      · exact appendOnly_wWriteStr _
    obtain ⟨d, hd⟩ := hrest _
    refine ⟨d, ?_⟩
    rw [hd]
    simp

/-- Witness for C6 on a concrete two-run table whose maximum is 256. -/
theorem width_selection_witness :
    num_ty [(0, 0, 7), (1, 2, 256)] = smallest_unsigned_type 256 :=
  width_selection.2.2.2.2.2.2.1 [(0, 0, 7), (1, 2, 256)] 256 (by decide) (by decide)

/-! ### Header-marker bookkeeping -/

theorem countMarker_append (a b : List String) :
    countMarker (a ++ b) = countMarker a + countMarker b := by
  simp [countMarker, List.count_append]

theorem countMarker_single_ne {c : String} (h : c ≠ headerMarker) : countMarker [c] = 0 := by
  simp only [countMarker, List.count_eq_zero, List.mem_singleton]
  exact fun h2 => h h2.symm

theorem ne_headerMarker_of_head (p q : String) (c : Char) (hp : p.data.head? = some c)
    (hc : c ≠ '/') : p ++ q ≠ headerMarker := by
  intro h
  have hd := congrArg String.data h
  rw [String.data_append] at hd
  have h1 : (p.data ++ q.data).head? = some '/' := by rw [hd]; decide
  rw [List.head?_append, hp] at h1
  simp at h1
  exact hc h1

theorem ne_headerMarker_of_get3 (p q : String) (c : Char) (hp : p.data[3]? = some c)
    (hc : c ≠ 'D') : p ++ q ≠ headerMarker := by
  intro h
  have hd := congrArg String.data h
  rw [String.data_append] at hd
  have hlen : 3 < p.data.length := by
    by_contra hle
    rw [List.getElem?_eq_none (by omega)] at hp
    exact Option.noConfusion hp
  have h1 : (p.data ++ q.data)[3]? = some 'D' := by rw [hd]; decide
  rw [List.getElem?_append_left hlen, hp] at h1
  exact hc (Option.some.inj h1)

theorem trimEnd_prefix (s : String) : (trimEndStr s).data <+: s.data := by
  show (s.data.reverse.dropWhile Char.isWhitespace).reverse <+: s.data
  have hsfx : s.data.reverse.dropWhile Char.isWhitespace <:+ s.data.reverse :=
    List.dropWhile_suffix Char.isWhitespace
  obtain ⟨t, ht⟩ := hsfx
  refine ⟨t.reverse, ?_⟩
  have h2 := congrArg List.reverse ht
  simpa using h2

theorem flush_chunk_ne (l : String) (hl : l.data.head? = some ' ') :
    trimEndStr l ++ "\n" ≠ headerMarker := by
  rcases htd : (trimEndStr l).data with _ | ⟨c, rest⟩
  · intro h
    have hd := congrArg String.data h
    rw [String.data_append, htd] at hd
    exact absurd hd (by decide)
  · have hpre := trimEnd_prefix l
    rw [htd] at hpre
    obtain ⟨t, ht⟩ := hpre
    have hh : l.data.head? = some c := by rw [← ht]; rfl
    rw [hl] at hh
    have hc : c = ' ' := (Option.some.inj hh).symm
    exact ne_headerMarker_of_head _ _ c (by rw [htd]; rfl) (by rw [hc]; decide)

theorem append_head (a b : String) (c : Char) (h : a.data.head? = some c) :
    (a ++ b).data.head? = some c := by
  rw [String.data_append, List.head?_append, h]
  rfl

/-! ### Structural spec of the line-writer primitives -/

theorem flushP_spec (lw : LineWriterSt) (h : LineOk lw) :
    LineOk lw.flushP ∧ lw.flushP.line = "" ∧ lw.flushP.indent = lw.indent ∧
    countMarker lw.flushP.out = countMarker lw.out := by
  unfold LineWriterSt.flushP
  split
  · next hline => exact ⟨h, hline, rfl, rfl⟩
  · next hline =>
    rcases h with ⟨hl | hl, hi⟩
    · exact absurd hl hline
    · refine ⟨⟨Or.inl rfl, hi⟩, rfl, rfl, ?_⟩
      rw [countMarker_append, countMarker_single_ne (flush_chunk_ne _ hl)]
      omega

theorem writeStrP_spec (lw : LineWriterSt) (s : String) (h : LineOk lw) :
    LineOk (lw.writeStrP s) ∧ (lw.writeStrP s).indent = lw.indent ∧
    countMarker (lw.writeStrP s).out = countMarker lw.out := by
  obtain ⟨⟨hf1, hfi⟩, hf2, hf3, hf4⟩ := flushP_spec lw h
  rcases h with ⟨hl, hi⟩
  unfold LineWriterSt.writeStrP
  by_cases hb : lw.line.utf8ByteSize + s.utf8ByteSize > lw.columns <;>
    simp only [hb, if_true, if_false, ite_true, ite_false]
  · rw [if_pos hf2]
    refine ⟨⟨Or.inr ?_, ?_⟩, ?_, ?_⟩
    · exact append_head _ _ _ (by rw [hf3]; exact hi)
    · simpa [hf3] using hi
    · simpa using hf3
    · simpa using hf4
  · rcases hl with hl | hl
    · rw [if_pos hl]
      exact ⟨⟨Or.inr (append_head _ _ _ hi), hi⟩, rfl, rfl⟩
    · rw [if_neg ?_]
      · exact ⟨⟨Or.inr (append_head _ _ _ hl), hi⟩, rfl, rfl⟩
      · intro he
        rw [he] at hl
        exact Option.noConfusion hl

theorem writeP_spec (lw : LineWriterSt) (buf : String) (h : LineOk lw) :
    LineOk (lw.writeP buf) ∧ (lw.writeP buf).line = "" ∧
    (lw.writeP buf).indent = lw.indent ∧
    countMarker (lw.writeP buf).out = countMarker lw.out + countMarker [buf] := by
  obtain ⟨⟨hf1, hfi⟩, hf2, hf3, hf4⟩ := flushP_spec lw h
  unfold LineWriterSt.writeP
  refine ⟨⟨Or.inl hf2, hfi⟩, hf2, hf3, ?_⟩
  rw [countMarker_append, hf4]

/-! ### Steady computations -/

theorem steady_pure {α : Type} (a : α) : Steady (pure a : WriterM α) :=
  fun _ h => ⟨h, rfl, rfl⟩

theorem steady_bind {α β : Type} {m : WriterM α} {f : α → WriterM β}
    (hm : Steady m) (hf : ∀ a, Steady (f a)) : Steady (m >>= f) := by
  intro st h
  rw [run_bind]
  have h1 := hm st h
  rcases hrun : m st with ⟨r, st1⟩
  rw [hrun] at h1
  replace h1 : LineOk st1.wtr ∧ countMarker st1.wtr.out = countMarker st.wtr.out ∧
      st1.wrote_header = st.wrote_header := h1
  cases r with
  | error e => exact h1
  | ok a =>
    have h2 := hf a st1 h1.1
    exact ⟨h2.1, h2.2.1.trans h1.2.1, h2.2.2.trans h1.2.2⟩

theorem steady_wErr {α : Type} (msg : String) : Steady (wErr msg : WriterM α) :=
  fun _ h => ⟨h, rfl, rfl⟩

theorem steady_wFlushLine : Steady wFlushLine := by
  intro st h
  obtain ⟨h1, _, _, h4⟩ := flushP_spec st.wtr h
  exact ⟨h1, h4, rfl⟩

theorem steady_wFlush : Steady wFlush := steady_wFlushLine

theorem steady_wWriteStr (s : String) : Steady (wWriteStr s) := by
  intro st h
  obtain ⟨h1, _, h3⟩ := writeStrP_spec st.wtr s h
  exact ⟨h1, h3, rfl⟩

theorem steady_wWrite (buf : String) (hb : buf ≠ headerMarker) : Steady (wWrite buf) := by
  intro st h
  obtain ⟨h1, _, _, h4⟩ := writeP_spec st.wtr buf h
  rw [countMarker_single_ne hb] at h4
  exact ⟨h1, by simpa using h4, rfl⟩

theorem steady_wWriteln (s : String) (hb : s ++ "\n" ≠ headerMarker) : Steady (wWriteln s) :=
  steady_wWrite _ hb

theorem steady_separator : Steady separator := steady_wWrite "\n" (by decide)

theorem steady_wIndent (s : String) (hs : s.data.head? = some ' ') : Steady (wIndent s) := by
  intro st h
  exact ⟨⟨h.1, hs⟩, rfl, rfl⟩

theorem steady_wCreateFile (path : String) (bytes : List Nat) :
    Steady (wCreateFile path bytes) :=
  fun _ h => ⟨h, rfl, rfl⟩

theorem steady_wFor {α : Type} (f : α → WriterM Unit) (l : List α)
    (hf : ∀ x, Steady (f x)) : Steady (wFor f l) := by
  induction l with
  | nil => exact steady_pure ()
  | cons x xs ih => exact steady_bind (hf x) (fun _ => ih)

/-! ### The header writes its marker exactly once -/

theorem hrun_bind {m m2 : WriterM Unit} {k k2 : Nat} {f f2 : Bool → Bool}
    (hm : HRun m k f) (hm2 : HRun m2 k2 f2) :
    HRun (m >>= fun _ => m2) (k + k2) (fun b => f2 (f b)) := by
  intro st h
  rw [run_bind]
  rcases hrun : m st with ⟨r, st1⟩
  have h1 := hm st h
  rw [hrun] at h1
  replace h1 : r = .ok () ∧ LineOk st1.wtr ∧
      countMarker st1.wtr.out = countMarker st.wtr.out + k ∧
      st1.wrote_header = f st.wrote_header := h1
  obtain ⟨hr, hl1, hc1, hf1⟩ := h1
  subst hr
  have h2 := hm2 st1 hl1
  exact ⟨h2.1, h2.2.1, by rw [h2.2.2.1, hc1]; omega, by rw [h2.2.2.2, hf1]⟩

theorem hrun_wWriteln (s : String) (h : s ++ "\n" ≠ headerMarker) :
    HRun (wWriteln s) 0 id := by
  intro st hl
  obtain ⟨l1, _, _, l4⟩ := writeP_spec st.wtr (s ++ "\n") hl
  refine ⟨rfl, l1, ?_, rfl⟩
  show countMarker (st.wtr.writeP (s ++ "\n")).out = countMarker st.wtr.out + 0
  rw [l4, countMarker_single_ne h]

theorem hrun_marker :
    HRun (wWriteln "// DO NOT EDIT THIS FILE. IT WAS AUTOMATICALLY GENERATED BY:") 1 id := by
  intro st hl
  obtain ⟨l1, _, _, l4⟩ := writeP_spec st.wtr
    ("// DO NOT EDIT THIS FILE. IT WAS AUTOMATICALLY GENERATED BY:" ++ "\n") hl
  refine ⟨rfl, l1, ?_, rfl⟩
  show countMarker
      (st.wtr.writeP ("// DO NOT EDIT THIS FILE. IT WAS AUTOMATICALLY GENERATED BY:" ++ "\n")).out
    = countMarker st.wtr.out + 1
  rw [l4]
  have hone : countMarker
      ["// DO NOT EDIT THIS FILE. IT WAS AUTOMATICALLY GENERATED BY:" ++ "\n"] = 1 := by decide
  rw [hone]

theorem hrun_pure : HRun (pure ()) 0 id :=
  fun _ h => ⟨rfl, h, rfl, rfl⟩

theorem hrun_wSetHeader : HRun wSetHeader 0 (fun _ => true) :=
  fun _ h => ⟨rfl, h, rfl, rfl⟩

theorem hrun_note : HRun ucd_version_note 0 id := by
  intro st h
  unfold ucd_version_note
  rcases st.revision with _ | rev
  · refine hrun_wWriteln _ ?_ st h
    simp only [String.append_assoc]
    exact ne_headerMarker_of_get3 _ _ 'y' (by decide) (by decide)
  · refine hrun_bind (hrun_wWriteln _ (by decide)) (hrun_wWriteln _ ?_) st h
    simp only [String.append_assoc]
    exact ne_headerMarker_of_get3 _ _ 'h' (by decide) (by decide)

theorem header_spec (st : WriterSt) (h : Inv st) :
    (header st).1 = .ok () ∧ Inv (header st).2 ∧ (header st).2.wrote_header = true := by
  obtain ⟨hok, hcount⟩ := h
  unfold header
  split
  · next hw => exact ⟨rfl, ⟨hok, hcount⟩, hw⟩
  · next hw =>
    rw [Bool.not_eq_true] at hw
    rw [hw] at hcount
    simp only [Bool.false_eq_true, if_false] at hcount
    unfold headerBody
    have hargv : ("//   " ++ String.intercalate " " (headerArgv st)) ++ "\n" ≠ headerMarker := by
      simp only [String.append_assoc]
      exact ne_headerMarker_of_get3 _ _ ' ' (by decide) (by decide)
    rcases st.opts.ucd_version with _ | v
    · have hc := hrun_bind hrun_marker (hrun_bind (hrun_wWriteln "//" (by decide))
        (hrun_bind (hrun_wWriteln _ hargv) (hrun_bind (hrun_wWriteln "//" (by decide))
          (hrun_bind hrun_pure (hrun_bind hrun_note hrun_wSetHeader)))))
      have hr := hc st hok
      refine ⟨hr.1, ⟨hr.2.1, ?_⟩, hr.2.2.2⟩
      rw [hr.2.2.2, if_pos rfl, hr.2.2.1, hcount]
    · have hU : ("// Unicode version: " ++ toString v.1 ++ "." ++ toString v.2.1
          ++ "." ++ toString v.2.2 ++ ".") ++ "\n" ≠ headerMarker := by
        simp only [String.append_assoc]
        exact ne_headerMarker_of_get3 _ _ 'U' (by decide) (by decide)
      have hc := hrun_bind hrun_marker (hrun_bind (hrun_wWriteln "//" (by decide))
        (hrun_bind (hrun_wWriteln _ hargv) (hrun_bind (hrun_wWriteln "//" (by decide))
          (hrun_bind (hrun_bind (hrun_wWriteln _ hU) (hrun_wWriteln "//" (by decide)))
            (hrun_bind hrun_note hrun_wSetHeader)))))
      have hr := hc st hok
      refine ⟨hr.1, ⟨hr.2.1, ?_⟩, hr.2.2.2⟩
      rw [hr.2.2.2, if_pos rfl, hr.2.2.1, hcount]

/-! ### Every emission body is steady -/

theorem steady_write_slice_u8 (xs : List Nat) : Steady (write_slice_u8 xs) := by
  unfold write_slice_u8
  exact steady_wFor _ _ (fun x => steady_wWriteStr _)

theorem steady_write_slice_u64 (xs : List Nat) : Steady (write_slice_u64 xs) := by
  unfold write_slice_u64
  refine steady_wFor _ _ (fun x => ?_)
  by_cases hx : x = 0
  · rw [if_pos hx]; exact steady_wWriteStr _
  · rw [if_neg hx]; exact steady_wWriteStr _

theorem steady_fstW (dir cname : String) (bytes : List Nat) (map : Bool) :
    Steady (fstW dir cname bytes map) := by
  unfold fstW
  refine steady_bind (steady_wCreateFile _ _) (fun _ => steady_bind (steady_wWriteln _ ?_)
    (fun _ => steady_bind (steady_wWriteln _ (by decide)) (fun _ =>
      steady_bind (steady_wWriteln _ ?_) (fun _ => steady_bind (steady_wWriteln _ ?_)
        (fun _ => steady_wWriteln _ (by decide))))))
  · simp only [String.append_assoc]
    exact ne_headerMarker_of_head _ _ 'p' (by decide) (by decide)
  · simp only [String.append_assoc]
    exact ne_headerMarker_of_head _ _ ' ' (by decide) (by decide)
  · simp only [String.append_assoc]
    exact ne_headerMarker_of_head _ _ ' ' (by decide) (by decide)

theorem steady_trie_set_w (name : String) (trie : TrieArrays) :
    Steady (trie_set_w name trie) := by
  unfold trie_set_w
  refine steady_bind (steady_wWriteln _ ?_) (fun _ => steady_bind (steady_wIndent _ (by decide))
    (fun _ => steady_bind (steady_wWriteln _ (by decide))
    (fun _ => steady_bind (steady_write_slice_u64 _)
    (fun _ => steady_bind (steady_wWriteln _ (by decide))
    (fun _ => steady_bind (steady_wWriteln _ (by decide))
    (fun _ => steady_bind (steady_write_slice_u8 _)
    (fun _ => steady_bind (steady_wWriteln _ (by decide))
    (fun _ => steady_bind (steady_wWriteln _ (by decide))
    (fun _ => steady_bind (steady_write_slice_u64 _)
    (fun _ => steady_bind (steady_wWriteln _ (by decide))
    (fun _ => steady_bind (steady_wWriteln _ (by decide))
    (fun _ => steady_bind (steady_write_slice_u8 _)
    (fun _ => steady_bind (steady_wWriteln _ (by decide))
    (fun _ => steady_bind (steady_wWriteln _ (by decide))
    (fun _ => steady_bind (steady_write_slice_u8 _)
    (fun _ => steady_bind (steady_wWriteln _ (by decide))
    (fun _ => steady_bind (steady_wWriteln _ (by decide))
    (fun _ => steady_bind (steady_write_slice_u64 _)
    (fun _ => steady_bind (steady_wWriteln _ (by decide))
    (fun _ => steady_wWriteln _ (by decide)))))))))))))))))))))
  simp only [String.append_assoc]
  exact ne_headerMarker_of_head _ _ 'p' (by decide) (by decide)

theorem steady_ranges_slice (name : String) (table : List (Nat × Nat)) :
    Steady (ranges_slice name table) := by
  intro st h
  unfold ranges_slice
  refine (steady_bind (steady_wWriteln _ ?_) (fun _ => steady_bind (steady_wFor _ _ ?_)
    (fun _ => steady_wWriteln _ (by decide)))) st h
  · simp only [String.append_assoc]
    exact ne_headerMarker_of_head _ _ 'p' (by decide) (by decide)
  · intro r
    rcases rust_codepoint st.opts r.1 with _ | a <;> rcases rust_codepoint st.opts r.2 with _ | b
    · exact steady_pure ()
    · exact steady_pure ()
    · exact steady_pure ()
    · exact steady_wWriteStr _

theorem steady_unsigned_slice (name : String) (table : List (Nat × Nat × Nat)) :
    Steady (ranges_to_unsigned_integer_slice name table) := by
  intro st h
  unfold ranges_to_unsigned_integer_slice
  refine (steady_bind (steady_wWriteln _ ?_) (fun _ => steady_bind (steady_wFor _ _ ?_)
    (fun _ => steady_wWriteln _ (by decide)))) st h
  · simp only [String.append_assoc]
    exact ne_headerMarker_of_head _ _ 'p' (by decide) (by decide)
  · intro r
    rcases rust_codepoint st.opts r.1 with _ | a <;>
      rcases rust_codepoint st.opts r.2.1 with _ | b
    · exact steady_pure ()
    · exact steady_pure ()
    · exact steady_pure ()
    · exact steady_wWriteStr _

theorem steady_sss_loop (first : Bool) (l : List (String × List (String × String))) :
    Steady (sss_loop first l) := by
  induction l generalizing first with
  | nil => exact steady_pure ()
  | cons kv rest ih =>
    rcases kv with ⟨k1, kvs⟩
    unfold sss_loop
    refine steady_bind ?_ (fun _ => steady_bind (steady_wWriteStr _)
      (fun _ => steady_bind (steady_wFor _ _ (fun kv2 => steady_wWriteStr _))
        (fun _ => steady_bind (steady_wWriteStr _) (fun _ => ih false))))
    rcases first with _ | _
    · exact steady_wWriteln _ (by decide)
    · exact steady_pure ()

theorem steady_c2cfn_loop (map : List (Nat × Nat)) : Steady (c2cfn_loop map) := by
  induction map with
  | nil => exact steady_pure ()
  | cons p rest ih =>
    rcases p with ⟨f, t⟩
    unfold c2cfn_loop
    by_cases ht : t = 0
    · rw [if_pos ht]
      exact steady_wErr _
    · rw [if_neg ht]
      exact steady_bind (steady_wWriteStr _) (fun _ => steady_bind steady_wFlushLine
        (fun _ => ih))

theorem steady_c2cs_render (kstr : String) (pvs : List Nat) (slicePre : String) :
    Steady (c2cs_render kstr pvs slicePre) := by
  intro st h
  unfold c2cs_render
  split
  · refine (steady_bind (steady_wWriteStr _) (fun _ => steady_bind ?_
      (fun _ => steady_wWriteStr _))) st h
    split
    · exact steady_wWriteStr _
    · exact steady_wFor _ _ (fun v => steady_wWriteStr _)
  · exact steady_pure () st h

theorem steady_c2cs_entry_flat (kstr : String) (vs : List Nat) :
    Steady (c2cs_entry_flat kstr vs) := by
  intro st h
  unfold c2cs_entry_flat
  by_cases h3 : vs.length > 3
  · rw [if_pos h3]
    exact steady_wErr _ st h
  · rw [if_neg h3]
    by_cases hc : vs.contains (flatPadding st.opts) = true
    · rw [if_pos hc]
      exact steady_wErr _ st h
    · rw [if_neg hc]
      exact steady_c2cs_render _ _ _ st h

theorem steady_c2cs_entry (flat : Bool) (k : Nat) (vs : List Nat) :
    Steady (c2cs_entry flat k vs) := by
  intro st h
  unfold c2cs_entry
  rcases hk : rust_codepoint st.opts k with _ | kstr
  · exact steady_pure () st h
  · rcases flat with _ | _
    · exact steady_c2cs_render _ _ _ st h
    · exact steady_c2cs_entry_flat _ _ st h

theorem steady_c2s_slice (name : String) (table : List (Nat × List Nat)) :
    Steady (codepoint_to_string_slice name table) := by
  intro st h
  unfold codepoint_to_string_slice
  refine (steady_bind (steady_wWriteln _ ?_) (fun _ => steady_bind (steady_wFor _ _ ?_)
    (fun _ => steady_wWriteln _ (by decide)))) st h
  · simp only [String.append_assoc]
    exact ne_headerMarker_of_head _ _ 'p' (by decide) (by decide)
  · intro kv
    rcases rust_codepoint st.opts kv.1 with _ | cp
    · exact steady_pure ()
    · exact steady_wWriteStr _

theorem steady_s2c_slice (name : String) (table : List (String × Nat)) :
    Steady (string_to_codepoint_slice name table) := by
  intro st h
  unfold string_to_codepoint_slice
  refine (steady_bind (steady_wWriteln _ ?_) (fun _ => steady_bind (steady_wFor _ _ ?_)
    (fun _ => steady_wWriteln _ (by decide)))) st h
  · simp only [String.append_assoc]
    exact ne_headerMarker_of_head _ _ 'p' (by decide) (by decide)
  · intro kv
    rcases rust_codepoint st.opts kv.2 with _ | cp
    · exact steady_pure ()
    · exact steady_wWriteStr _

theorem steady_s2u64_slice (name : String) (table : List (String × Nat)) :
    Steady (string_to_u64_slice name table) := by
  unfold string_to_u64_slice
  refine steady_bind (steady_wWriteln _ ?_) (fun _ => steady_bind
    (steady_wFor _ _ (fun kv => steady_wWriteStr _)) (fun _ => steady_wWriteln _ (by decide)))
  simp only [String.append_assoc]
  exact ne_headerMarker_of_head _ _ 'p' (by decide) (by decide)

/-! ### The header invariant across the emission catalog (claim C9) -/

theorem op_headed {rest : Unit → WriterM Unit} (st : WriterSt) (h : Inv st)
    (hrest : Steady (rest ())) :
    Inv ((header >>= rest) st).2 ∧
    (st.wrote_header = true → ((header >>= rest) st).2.wrote_header = true) := by
  obtain ⟨hok, hinv2, hflag⟩ := header_spec st h
  rw [run_bind]
  rcases hrun : header st with ⟨r, st1⟩
  rw [hrun] at hok hinv2 hflag
  replace hok : r = .ok () := hok
  subst hok
  replace hinv2 : Inv st1 := hinv2
  replace hflag : st1.wrote_header = true := hflag
  have hs := hrest st1 hinv2.1
  constructor
  · refine ⟨hs.1, ?_⟩
    rw [hs.2.1, hinv2.2, hs.2.2, hflag]
  · intro _
    rw [hs.2.2, hflag]

/-- Claim C9 as amended: every modelled emission call preserves the header
invariant — the cumulative output holds the provenance header exactly once
in state HeaderWritten and never in state Unwritten — and the header flag
only transitions Unwritten to HeaderWritten, never back.  (A call whose
capability pre-check rejects it leaves the state untouched, so the first
emission call that passes its pre-check is the one that writes the header,
exactly once.) -/
theorem emit_header_once (ext : Externals) (c : EmitCall) (st : WriterSt) (h : Inv st) :
    Inv ((EmitCall.run ext c) st).2 ∧
    (st.wrote_header = true → ((EmitCall.run ext c) st).2.wrote_header = true) := by
  cases c with
  | names l =>
    simp only [EmitCall.run]
    unfold names_w
    refine op_headed st h ?_
    refine steady_bind steady_separator (fun _ => steady_bind (steady_wWriteln _ ?_)
      (fun _ => steady_bind (steady_wFor _ _ (fun n => steady_wWriteStr _))
        (fun _ => steady_wWriteln _ (by decide))))
    simp only [String.append_assoc]
    exact ne_headerMarker_of_head _ _ 'p' (by decide) (by decide)
  | ranges n cps =>
    simp only [EmitCall.run]
    unfold UcdWriter.ranges
    refine op_headed st h ?_
    refine steady_bind steady_separator (fun _ => steady_bind ?_ (fun _ => steady_wFlush))
    rcases st.opts.fst_dir with _ | dir
    · by_cases htrie : st.opts.trie_set = true
      · rw [if_pos htrie]
        cases ext.trieFromCodepoints cps with
        | error e => exact steady_wErr _
        | ok trie => exact steady_trie_set_w _ _
      · rw [if_neg htrie]
        exact steady_ranges_slice _ _
    · exact steady_fstW _ _ _ _
  | rangesToUnsignedInteger n m =>
    simp only [EmitCall.run]
    unfold ranges_to_unsigned_integer
    refine op_headed st h ?_
    refine steady_bind steady_separator (fun _ => steady_bind ?_ (fun _ => steady_wFlush))
    rcases st.opts.fst_dir with _ | dir
    · exact steady_unsigned_slice _ _
    · exact steady_fstW _ _ _ _
  | stringToString n m =>
    simp only [EmitCall.run]
    unfold string_to_string
    by_cases hf : st.opts.fst_dir.isSome = true
    · rw [if_pos hf]
      exact ⟨h, fun hh => hh⟩
    · rw [if_neg hf]
      refine op_headed st h ?_
      refine steady_bind steady_separator (fun _ => steady_bind (steady_wWriteln _ ?_)
        (fun _ => steady_bind (steady_wFor _ _ (fun kv => steady_wWriteStr _))
          (fun _ => steady_bind (steady_wWriteln _ (by decide)) (fun _ => steady_wFlush))))
      simp only [String.append_assoc]
      exact ne_headerMarker_of_head _ _ 'p' (by decide) (by decide)
  | stringToStringToString n m =>
    simp only [EmitCall.run]
    unfold string_to_string_to_string
    by_cases hf : st.opts.fst_dir.isSome = true
    · rw [if_pos hf]
      exact ⟨h, fun hh => hh⟩
    · rw [if_neg hf]
      refine op_headed st h ?_
      refine steady_bind steady_separator (fun _ => steady_bind (steady_wWriteln _ ?_)
        (fun _ => steady_bind (steady_sss_loop _ _)
          (fun _ => steady_bind (steady_wWriteln _ (by decide)) (fun _ => steady_wFlush))))
      simp only [String.append_assoc]
      exact ne_headerMarker_of_head _ _ 'p' (by decide) (by decide)
  | codepointToCodepoint n m =>
    simp only [EmitCall.run]
    unfold codepoint_to_codepoint
    refine op_headed st h ?_
    refine steady_bind steady_separator (fun _ => steady_bind ?_ (fun _ => steady_wFlush))
    rcases st.opts.fst_dir with _ | dir
    · exact steady_ranges_slice _ _
    · exact steady_fstW _ _ _ _
  | codepointToCodepointFn n m =>
    simp only [EmitCall.run]
    unfold codepoint_to_codepoint_fn
    refine op_headed st h ?_
    refine steady_bind steady_separator (fun _ =>
      steady_bind (steady_wWriteln _ (by decide)) (fun _ =>
      steady_bind steady_separator (fun _ =>
      steady_bind (steady_wWriteln _ ?_) (fun _ =>
      steady_bind (steady_wIndent _ (by decide)) (fun _ =>
      steady_bind (steady_wWriteStr _) (fun _ =>
      steady_bind steady_wFlushLine (fun _ =>
      steady_bind (steady_wWriteStr _) (fun _ =>
      steady_bind steady_wFlushLine (fun _ =>
      steady_bind (steady_wWriteStr _) (fun _ =>
      steady_bind steady_wFlushLine (fun _ =>
      steady_bind (steady_wIndent _ (by decide)) (fun _ =>
      steady_bind (steady_wWriteStr _) (fun _ =>
      steady_bind steady_wFlushLine (fun _ =>
      steady_bind (steady_wIndent _ (by decide)) (fun _ =>
      steady_bind (steady_c2cfn_loop _) (fun _ =>
      steady_bind (steady_wWriteStr _) (fun _ =>
      steady_bind steady_wFlushLine (fun _ =>
      steady_bind (steady_wIndent _ (by decide)) (fun _ =>
      steady_bind (steady_wWriteStr _) (fun _ =>
      steady_bind steady_wFlushLine (fun _ =>
      steady_bind (steady_wIndent _ (by decide)) (fun _ =>
      steady_bind (steady_wWriteStr _) (fun _ =>
      steady_bind steady_wFlushLine (fun _ =>
      steady_bind (steady_wWriteln _ (by decide)) (fun _ =>
      steady_wFlush)))))))))))))))))))))))))
    simp only [String.append_assoc]
    exact ne_headerMarker_of_head _ _ 'p' (by decide) (by decide)
  | multiCodepointToCodepoint n m flat =>
    simp only [EmitCall.run]
    unfold multi_codepoint_to_codepoint
    by_cases hf : st.opts.fst_dir.isSome = true
    · rw [if_pos hf]
      exact ⟨h, fun hh => hh⟩
    · rw [if_neg hf]
      unfold codepoint_to_codepoints
      rw [if_neg hf]
      refine op_headed st h ?_
      refine steady_bind steady_separator (fun _ => steady_bind ?_
        (fun _ => steady_bind (steady_wFor _ _ (fun kv => steady_c2cs_entry _ _ _))
          (fun _ => steady_bind (steady_wWriteln _ (by decide)) (fun _ => steady_wFlush))))
      rcases flat with _ | _
      · refine steady_wWriteln _ ?_
        simp only [String.append_assoc]
        exact ne_headerMarker_of_head _ _ 'p' (by decide) (by decide)
      · refine steady_wWriteln _ ?_
        simp only [String.append_assoc]
        exact ne_headerMarker_of_head _ _ 'p' (by decide) (by decide)
  | codepointToCodepoints n m flat =>
    simp only [EmitCall.run]
    unfold codepoint_to_codepoints
    by_cases hf : st.opts.fst_dir.isSome = true
    · rw [if_pos hf]
      exact ⟨h, fun hh => hh⟩
    · rw [if_neg hf]
      refine op_headed st h ?_
      refine steady_bind steady_separator (fun _ => steady_bind ?_
        (fun _ => steady_bind (steady_wFor _ _ (fun kv => steady_c2cs_entry _ _ _))
          (fun _ => steady_bind (steady_wWriteln _ (by decide)) (fun _ => steady_wFlush))))
      rcases flat with _ | _
      · refine steady_wWriteln _ ?_
        simp only [String.append_assoc]
        exact ne_headerMarker_of_head _ _ 'p' (by decide) (by decide)
      · refine steady_wWriteln _ ?_
        simp only [String.append_assoc]
        exact ne_headerMarker_of_head _ _ 'p' (by decide) (by decide)
  | codepointToString n m =>
    simp only [EmitCall.run]
    unfold codepoint_to_string
    refine op_headed st h ?_
    refine steady_bind steady_separator (fun _ => steady_bind ?_ (fun _ => steady_wFlush))
    rcases st.opts.fst_dir with _ | dir
    · exact steady_c2s_slice _ _
    · cases pack_pairs m with
      | error e => exact steady_wErr _
      | ok pairs => exact steady_fstW _ _ _ _
  | stringToCodepoint n m =>
    simp only [EmitCall.run]
    unfold string_to_codepoint
    refine op_headed st h ?_
    refine steady_bind steady_separator (fun _ => steady_bind ?_ (fun _ => steady_wFlush))
    rcases st.opts.fst_dir with _ | dir
    · exact steady_s2c_slice _ _
    · exact steady_fstW _ _ _ _
  | stringToU64 n m =>
    simp only [EmitCall.run]
    unfold string_to_u64
    refine op_headed st h ?_
    refine steady_bind steady_separator (fun _ => steady_bind ?_ (fun _ => steady_wFlush))
    rcases st.opts.fst_dir with _ | dir
    · exact steady_s2u64_slice _ _
    · exact steady_fstW _ _ _ _

/-- Witness for the amended C9 on a fresh writer and a concrete call. -/
theorem emit_header_once_witness :
    Inv ((EmitCall.run ext0 (EmitCall.stringToU64 "t" [])) testWriter).2 ∧
    (testWriter.wrote_header = true →
      ((EmitCall.run ext0 (EmitCall.stringToU64 "t" [])) testWriter).2.wrote_header = true) :=
  emit_header_once ext0 (EmitCall.stringToU64 "t" []) testWriter ⟨⟨Or.inl rfl, by decide⟩, rfl⟩

/-- Claim C9 counterexample: on an FST-configured writer whose first
emission call is `string_to_string`, that first call writes no provenance
header at all (the capability pre-check rejects the call before the
header routine runs): the output stays empty and the instance stays
Unwritten, contradicting "the first emission call writes the provenance
header exactly once". -/
theorem first_call_no_header_counterexample :
    (string_to_string "t" [("a", "b")] testFstWriter).1 =
      .error "cannot emit string->string map as an FST" ∧
    (string_to_string "t" [("a", "b")] testFstWriter).2 = testFstWriter ∧
    testFstWriter.wrote_header = false ∧ testFstWriter.wtr.out = [] := by decide

/-! ### Value checks come after the header is written (claim C2) -/

theorem c2cfn_loop_error (map : List (Nat × Nat)) (h : ∃ f, (f, 0) ∈ map) :
    ∀ st, ∃ e st2, c2cfn_loop map st = (.error e, st2) := by
  induction map with
  | nil =>
    obtain ⟨f, hf⟩ := h
    exact absurd hf (List.not_mem_nil _)
  | cons p rest ih =>
    rcases p with ⟨pf, pt⟩
    intro st
    by_cases hz : pt = 0
    · subst hz
      exact ⟨_, st, rfl⟩
    · obtain ⟨f, hf⟩ := h
      have hmem : (f, (0 : Nat)) ∈ rest := by
        rcases List.mem_cons.mp hf with heq | hm
        · injection heq with h1 h2
          exact absurd h2.symm hz
        · exact hm
      obtain ⟨e, st2, h2⟩ := ih ⟨f, hmem⟩
        ({ st with wtr := (st.wtr.writeStrP
            (toString pf ++ " => Some(NonZeroU32::new_unchecked(" ++ toString pt
              ++ ")),")).flushP })
      refine ⟨e, st2, ?_⟩
      unfold c2cfn_loop
      rw [if_neg hz]
      exact h2

theorem seq_error_of_loop {β : Type} (map : List (Nat × Nat)) (h : ∃ f, (f, 0) ∈ map)
    (k : Unit → WriterM β) (S : WriterSt) :
    ∃ e, ((c2cfn_loop map >>= k) S).1 = .error e := by
  obtain ⟨e, st2, hl⟩ := c2cfn_loop_error map h S
  exact ⟨e, by rw [run_bind, hl]⟩

theorem appendOnly_ucd_version_note : AppendOnly ucd_version_note := by
  intro st
  unfold ucd_version_note
  rcases st.revision with _ | rev
  · exact appendOnly_wWriteln _ st
  · exact appendOnly_bind (appendOnly_wWriteln _) (fun _ => appendOnly_wWriteln _) st

theorem appendOnly_header : AppendOnly header := by
  intro st
  unfold header
  split
  · exact ⟨[], by simp⟩
  · unfold headerBody
    refine appendOnly_bind (appendOnly_wWriteln _) (fun _ =>
      appendOnly_bind (appendOnly_wWriteln _) (fun _ =>
      appendOnly_bind (appendOnly_wWriteln _) (fun _ =>
      appendOnly_bind (appendOnly_wWriteln _) (fun _ =>
      appendOnly_bind ?_ (fun _ =>
      appendOnly_bind appendOnly_ucd_version_note (fun _ => appendOnly_wSetHeader)))))) st
    rcases st.opts.ucd_version with _ | v
    · exact appendOnly_pure ()
    · exact appendOnly_bind (appendOnly_wWriteln _) (fun _ => appendOnly_wWriteln _)

theorem appendOnly_c2cfn_loop (map : List (Nat × Nat)) : AppendOnly (c2cfn_loop map) := by
  induction map with
  | nil => exact appendOnly_pure ()
  | cons p rest ih =>
    rcases p with ⟨pf, pt⟩
    unfold c2cfn_loop
    by_cases hz : pt = 0
    · rw [if_pos hz]
      exact appendOnly_wErr _
    · rw [if_neg hz]
      exact appendOnly_bind (appendOnly_wWriteStr _) (fun _ =>
        appendOnly_bind appendOnly_wFlushLine (fun _ => ih))

theorem writeP_appends (lw : LineWriterSt) (buf : String) :
    ∃ d, (lw.writeP buf).out = lw.out ++ d ∧ d ≠ [] := by
  obtain ⟨d0, hd0⟩ := flushP_out lw
  refine ⟨d0 ++ [buf], ?_, by simp⟩
  show lw.flushP.out ++ [buf] = lw.out ++ (d0 ++ [buf])
  rw [hd0, List.append_assoc]

theorem sep_then_grows (m : WriterM Unit) (hk : AppendOnly m) (st : WriterSt) :
    ∃ d, ((separator >>= fun _ => m) st).2.wtr.out = st.wtr.out ++ d ∧ d ≠ [] := by
  obtain ⟨d2, hd2, hne⟩ := writeP_appends st.wtr "\n"
  obtain ⟨d3, hd3⟩ := hk { st with wtr := st.wtr.writeP "\n" }
  refine ⟨d2 ++ d3, ?_, by simp [hne]⟩
  show (m { st with wtr := st.wtr.writeP "\n" }).2.wtr.out = st.wtr.out ++ (d2 ++ d3)
  rw [hd3]
  show (st.wtr.writeP "\n").out ++ d3 = _
  rw [hd2, List.append_assoc]

theorem c2cfn_value_error (name : String) (map : List (Nat × Nat)) (st : WriterSt)
    (hInv : Inv st) (h : ∃ f, (f, 0) ∈ map) :
    (∃ e, (codepoint_to_codepoint_fn name map st).1 = .error e) ∧
    ∃ d, (codepoint_to_codepoint_fn name map st).2.wtr.out = st.wtr.out ++ d ∧ d ≠ [] := by
  obtain ⟨hok, _, _⟩ := header_spec st hInv
  unfold codepoint_to_codepoint_fn
  rw [run_bind]
  rcases hrun : header st with ⟨r, st1⟩
  rw [hrun] at hok
  replace hok : r = .ok () := hok
  subst hok
  obtain ⟨d1, hd1⟩ := appendOnly_header st
  rw [hrun] at hd1
  replace hd1 : st1.wtr.out = st.wtr.out ++ d1 := hd1
  constructor
  · exact seq_error_of_loop map h _ _
  · have hrest : AppendOnly (
        wWriteln "use std::num::NonZeroU32;" >>= fun _ =>
        separator >>= fun _ =>
        wWriteln ("pub fn " ++ rust_fn_name name ++ "(cp: u32) -> Option<NonZeroU32> \x7b")
          >>= fun _ =>
        wIndent "    " >>= fun _ =>
        wWriteStr "// new_unchecked is safe as ucd-generate checks that the destination"
          >>= fun _ =>
        wFlushLine >>= fun _ =>
        wWriteStr "// codepoint is non-zero at code generation time." >>= fun _ =>
        wFlushLine >>= fun _ =>
        wWriteStr "unsafe \x7b" >>= fun _ =>
        wFlushLine >>= fun _ =>
        wIndent "        " >>= fun _ =>
        wWriteStr "match cp \x7b" >>= fun _ =>
        wFlushLine >>= fun _ =>
        wIndent "            " >>= fun _ =>
        c2cfn_loop map >>= fun _ =>
        wWriteStr "_ => None," >>= fun _ =>
        wFlushLine >>= fun _ =>
        wIndent "        " >>= fun _ =>
        wWriteStr "\x7d" >>= fun _ =>
        wFlushLine >>= fun _ =>
        wIndent "    " >>= fun _ =>
        wWriteStr "\x7d" >>= fun _ =>
        wFlushLine >>= fun _ =>
        wWriteln "\x7d" >>= fun _ =>
        wFlush) := by
      refine appendOnly_bind (appendOnly_wWriteln _) (fun _ =>
        appendOnly_bind (appendOnly_wWrite _) (fun _ =>
        appendOnly_bind (appendOnly_wWriteln _) (fun _ =>
        appendOnly_bind (appendOnly_wIndent _) (fun _ =>
        appendOnly_bind (appendOnly_wWriteStr _) (fun _ =>
        appendOnly_bind appendOnly_wFlushLine (fun _ =>
        appendOnly_bind (appendOnly_wWriteStr _) (fun _ =>
        appendOnly_bind appendOnly_wFlushLine (fun _ =>
        appendOnly_bind (appendOnly_wWriteStr _) (fun _ =>
        appendOnly_bind appendOnly_wFlushLine (fun _ =>
        appendOnly_bind (appendOnly_wIndent _) (fun _ =>
        appendOnly_bind (appendOnly_wWriteStr _) (fun _ =>
        appendOnly_bind appendOnly_wFlushLine (fun _ =>
        appendOnly_bind (appendOnly_wIndent _) (fun _ =>
        appendOnly_bind (appendOnly_c2cfn_loop _) (fun _ =>
        appendOnly_bind (appendOnly_wWriteStr _) (fun _ =>
        appendOnly_bind appendOnly_wFlushLine (fun _ =>
        appendOnly_bind (appendOnly_wIndent _) (fun _ =>
        appendOnly_bind (appendOnly_wWriteStr _) (fun _ =>
        appendOnly_bind appendOnly_wFlushLine (fun _ =>
        appendOnly_bind (appendOnly_wIndent _) (fun _ =>
        appendOnly_bind (appendOnly_wWriteStr _) (fun _ =>
        appendOnly_bind appendOnly_wFlushLine (fun _ =>
        appendOnly_bind (appendOnly_wWriteln _) (fun _ =>
        appendOnly_wFlushLine))))))))))))))))))))))))
    obtain ⟨d, hd, hne⟩ := sep_then_grows _ hrest st1
    refine ⟨d1 ++ d, ?_, by simp [hne]⟩
    rw [← List.append_assoc, ← hd1]
    exact hd

theorem pack_pairs_error (map : List (Nat × List Nat))
    (h : ∃ kv ∈ map, ∃ e2, pack_str kv.2 = .error e2) :
    ∃ e, pack_pairs map = .error e := by
  induction map with
  | nil => simp at h
  | cons kv rest ih =>
    rcases kv with ⟨k, v⟩
    rcases hpv : pack_str v with e | pv
    · exact ⟨e, by unfold pack_pairs; rw [hpv]⟩
    · obtain ⟨kv2, hkv2, e2, he2⟩ := h
      rcases List.mem_cons.mp hkv2 with heq | hm
      · rw [heq] at he2
        rw [hpv] at he2
        exact absurd he2 (by simp)
      · obtain ⟨e, he⟩ := ih ⟨kv2, hm, e2, he2⟩
        exact ⟨e, by unfold pack_pairs; rw [hpv, he]⟩

theorem c2s_pack_error (ext : Externals) (name : String) (map : List (Nat × List Nat))
    (st : WriterSt) (dir : String) (hInv : Inv st) (hfst : st.opts.fst_dir = some dir)
    (h : ∃ kv ∈ map, ∃ e2, pack_str kv.2 = .error e2) :
    (∃ e, (codepoint_to_string ext name map st).1 = .error e) ∧
    ∃ d, (codepoint_to_string ext name map st).2.wtr.out = st.wtr.out ++ d ∧ d ≠ [] := by
  obtain ⟨e, he⟩ := pack_pairs_error map h
  obtain ⟨hok, _, _⟩ := header_spec st hInv
  unfold codepoint_to_string
  rw [hfst, he, run_bind]
  rcases hrun : header st with ⟨r, st1⟩
  rw [hrun] at hok
  replace hok : r = .ok () := hok
  subst hok
  obtain ⟨d1, hd1⟩ := appendOnly_header st
  rw [hrun] at hd1
  replace hd1 : st1.wtr.out = st.wtr.out ++ d1 := hd1
  constructor
  · exact ⟨e, rfl⟩
  · have hrest : AppendOnly ((wErr e : WriterM Unit) >>= fun _ => wFlush) :=
      appendOnly_bind (appendOnly_wErr _) (fun _ => appendOnly_wFlushLine)
    obtain ⟨d, hd, hne⟩ := sep_then_grows _ hrest st1
    refine ⟨d1 ++ d, ?_, by simp [hne]⟩
    rw [← List.append_assoc, ← hd1]
    exact hd

/-- Claim C2 as amended: the value-check errors — a zero destination in
`codepoint_to_codepoint_fn` and an unpackable string in the FST path of
`codepoint_to_string` — are detected and returned synchronously, but only
after the call has already written bytes of output for that call (the
provenance header, separator and any prelude): on such an error the
output is strictly extended, not unchanged.  Only the capability
pre-checks reject a call before any bytes are written. -/
theorem value_checks_after_header :
    (∀ (name : String) (map : List (Nat × Nat)) (st : WriterSt), Inv st →
        (∃ f, (f, 0) ∈ map) →
        (∃ e, (codepoint_to_codepoint_fn name map st).1 = .error e) ∧
        ∃ d, (codepoint_to_codepoint_fn name map st).2.wtr.out = st.wtr.out ++ d ∧ d ≠ []) ∧
    (∀ (ext : Externals) (name : String) (map : List (Nat × List Nat)) (st : WriterSt)
        (dir : String), Inv st → st.opts.fst_dir = some dir →
        (∃ kv ∈ map, ∃ e2, pack_str kv.2 = .error e2) →
        (∃ e, (codepoint_to_string ext name map st).1 = .error e) ∧
        ∃ d, (codepoint_to_string ext name map st).2.wtr.out = st.wtr.out ++ d ∧ d ≠ []) :=
  ⟨c2cfn_value_error, fun ext name map st dir hInv hfst h =>
     c2s_pack_error ext name map st dir hInv hfst h⟩

/-- Witness for the amended C2 at the concrete zero-destination map. -/
theorem value_checks_after_header_witness :
    ∃ e, (codepoint_to_codepoint_fn "err" [(1, 0)] testWriter).1 = .error e :=
  (value_checks_after_header.1 "err" [(1, 0)] testWriter ⟨⟨Or.inl rfl, by decide⟩, rfl⟩
    ⟨1, by decide⟩).1

/-- Claim C2 counterexample: `codepoint_to_codepoint_fn` on a fresh writer
and the map `{1 ↦ 0}` returns the zero-destination error only after the
header and function prelude have been written to the sink — the output is
not unchanged, contradicting "before any bytes of that call's output are
written". -/
theorem value_error_after_output_counterexample :
    testWriter.wtr.out = [] ∧
    (∃ e, (codepoint_to_codepoint_fn "err" [(1, 0)] testWriter).1 = .error e) ∧
    (codepoint_to_codepoint_fn "err" [(1, 0)] testWriter).2.wtr.out ≠ [] := by
  obtain ⟨he, d, hd, hne⟩ := c2cfn_value_error "err" [(1, 0)] testWriter
    ⟨⟨Or.inl rfl, by decide⟩, rfl⟩ ⟨1, by decide⟩
  refine ⟨rfl, he, ?_⟩
  rw [hd]
  show ([] : List String) ++ d ≠ []
  simpa using hne

/-! ### Capability checks and the FST backend (claim C8) -/

theorem hrun_wWrite (buf : String) (h : buf ≠ headerMarker) : HRun (wWrite buf) 0 id := by
  intro st hl
  obtain ⟨l1, _, _, l4⟩ := writeP_spec st.wtr buf hl
  refine ⟨rfl, l1, ?_, rfl⟩
  show countMarker (st.wtr.writeP buf).out = countMarker st.wtr.out + 0
  rw [l4, countMarker_single_ne h]

theorem hrun_separator : HRun separator 0 id := hrun_wWrite "\n" (by decide)

theorem hrun_wCreateFile (path : String) (bytes : List Nat) :
    HRun (wCreateFile path bytes) 0 id :=
  fun _ h => ⟨rfl, h, rfl, rfl⟩

theorem hrun_wFlushLine : HRun wFlushLine 0 id := by
  intro st h
  obtain ⟨h1, _, _, h4⟩ := flushP_spec st.wtr h
  exact ⟨rfl, h1, by simpa using h4, rfl⟩

theorem hrun_fstW (dir cname : String) (bytes : List Nat) (map : Bool) :
    HRun (fstW dir cname bytes map) 0 id := by
  unfold fstW
  refine hrun_bind (hrun_wCreateFile _ _) (hrun_bind (hrun_wWriteln _ ?_)
    (hrun_bind (hrun_wWriteln _ (by decide)) (hrun_bind (hrun_wWriteln _ ?_)
      (hrun_bind (hrun_wWriteln _ ?_) (hrun_wWriteln _ (by decide))))))
  · simp only [String.append_assoc]
    exact ne_headerMarker_of_head _ _ 'p' (by decide) (by decide)
  · simp only [String.append_assoc]
    exact ne_headerMarker_of_head _ _ ' ' (by decide) (by decide)
  · simp only [String.append_assoc]
    exact ne_headerMarker_of_head _ _ ' ' (by decide) (by decide)

theorem c2s_fst_ok (ext : Externals) (name : String) (map : List (Nat × List Nat))
    (st : WriterSt) (dir : String) (hInv : Inv st) (hfst : st.opts.fst_dir = some dir)
    (h : ∃ pairs, pack_pairs map = .ok pairs) :
    (codepoint_to_string ext name map st).1 = .ok () ∧
    (codepoint_to_string ext name map st).2.wrote_header = true ∧
    (codepoint_to_string ext name map st).2.wtr.out ≠ [] := by
  obtain ⟨pairs, hp⟩ := h
  obtain ⟨hok, hInv2, hflag⟩ := header_spec st hInv
  rcases hrun : header st with ⟨r, st1⟩
  rw [hrun] at hok hInv2 hflag
  replace hok : r = .ok () := hok
  subst hok
  replace hInv2 : Inv st1 := hInv2
  replace hflag : st1.wrote_header = true := hflag
  have hre := hrun_bind hrun_separator (hrun_bind
    (hrun_fstW dir (rust_const_name name) (ext.fstMapBytes pairs) true)
    hrun_wFlushLine) st1 hInv2.1
  have hcount1 : countMarker st1.wtr.out = 1 := by
    have h2 := hInv2.2
    rw [hflag] at h2
    simpa using h2
  refine ⟨?_, ?_, ?_⟩
  · unfold codepoint_to_string
    rw [hfst, hp, run_bind, hrun]
    exact hre.1
  · unfold codepoint_to_string
    rw [hfst, hp, run_bind, hrun]
    have hid : id st1.wrote_header = true := hflag
    exact hre.2.2.2.trans hid
  · unfold codepoint_to_string
    rw [hfst, hp, run_bind, hrun]
    intro he
    have hc : countMarker ((separator >>= fun _ =>
        (fstW dir (rust_const_name name) (ext.fstMapBytes pairs) true >>= fun _ =>
          wFlushLine)) st1).2.wtr.out = 1 := by
      rw [hre.2.2.1, hcount1]
    have he2 : ((separator >>= fun _ =>
        (fstW dir (rust_const_name name) (ext.fstMapBytes pairs) true >>= fun _ =>
          wFlushLine)) st1).2.wtr.out = ([] : List String) := he
    rw [he2] at hc
    exact absurd hc (by decide)

/-- Claim C8 as amended: with the FST backend configured, the
string-to-string, string-to-string-to-string and one-to-many codepoint
maps are rejected with a capability error before anything at all is
written or created (the state is returned untouched); the
codepoint-to-string map, however, is not rejected — its FST path is
supported via string packing, as the concrete successful run shows
(returning ok and writing loader output to the sink). -/
theorem fst_capability_rejections :
    (∀ (name : String) (map : List (String × String)) (st : WriterSt),
        st.opts.fst_dir.isSome = true →
        string_to_string name map st =
          (.error "cannot emit string->string map as an FST", st)) ∧
    (∀ (name : String) (map : List (String × List (String × String))) (st : WriterSt),
        st.opts.fst_dir.isSome = true →
        string_to_string_to_string name map st =
          (.error "cannot emit string->string map as an FST", st)) ∧
    (∀ (name : String) (map : List (Nat × List Nat)) (flat : Bool) (st : WriterSt),
        st.opts.fst_dir.isSome = true →
        multi_codepoint_to_codepoint name map flat st =
          (.error "cannot emit codepoint multimaps as an FST", st)) ∧
    (∀ (name : String) (map : List (Nat × List Nat)) (flat : Bool) (st : WriterSt),
        st.opts.fst_dir.isSome = true →
        codepoint_to_codepoints name map flat st =
          (.error "cannot emit codepoint->codepoints map as an FST", st)) ∧
    ((codepoint_to_string ext0 "t" [(71, [71])] testFstWriter).1 = .ok () ∧
     (codepoint_to_string ext0 "t" [(71, [71])] testFstWriter).2.wtr.out ≠ []) := by
  have hk := c2s_fst_ok ext0 "t" [(71, [71])] testFstWriter "out"
    ⟨⟨Or.inl rfl, by decide⟩, rfl⟩ rfl ⟨_, rfl⟩
  refine ⟨?_, ?_, ?_, ?_, hk.1, hk.2.2⟩
  · intro name map st hf
    unfold string_to_string
    rw [if_pos hf]
    rfl
  · intro name map st hf
    unfold string_to_string_to_string
    rw [if_pos hf]
    rfl
  · intro name map flat st hf
    unfold multi_codepoint_to_codepoint
    rw [if_pos hf]
    rfl
  · intro name map flat st hf
    unfold codepoint_to_codepoints
    rw [if_pos hf]
    rfl

/-- Witness for the amended C8 on the concrete FST-configured writer. -/
theorem fst_capability_rejections_witness :
    string_to_string "t" [] testFstWriter =
      (.error "cannot emit string->string map as an FST", testFstWriter) :=
  fst_capability_rejections.1 "t" [] testFstWriter (by decide)

/-- Claim C8 counterexample: requesting FST emission of a
codepoint-to-string map is not rejected with a capability error: the call
succeeds on an FST-configured writer, writes the header and loader output
to the sink, and sets the header flag. -/
theorem codepoint_to_string_fst_accepted_counterexample :
    testFstWriter.opts.fst_dir.isSome = true ∧
    (codepoint_to_string ext0 "t" [(71, [71])] testFstWriter).1 = .ok () ∧
    (codepoint_to_string ext0 "t" [(71, [71])] testFstWriter).2.wtr.out ≠ [] ∧
    (codepoint_to_string ext0 "t" [(71, [71])] testFstWriter).2.wrote_header = true := by
  have hk := c2s_fst_ok ext0 "t" [(71, [71])] testFstWriter "out"
    ⟨⟨Or.inl rfl, by decide⟩, rfl⟩ rfl ⟨_, rfl⟩
  exact ⟨rfl, hk.1, hk.2.2, hk.2.1⟩

end UcdWriter
